import Mathlib

/-!
Verification of the 6502 two-pass assembler (`services/assembler.ts` and
`services/opcodes.ts`).  The TypeScript source is shallowly embedded:
strings are processed as `List Char`, JavaScript numbers are `Int` with the
32-bit wrapping of the bitwise operators made explicit, `parseInt` is
modelled including its sign / `0x`-prefix / maximal-digit-run behaviour,
and the fallible routines return `Except String`.
-/

namespace Asm

/-- Character lists standing for JavaScript strings. -/
abbrev Str := List Char

deriving instance DecidableEq for Except

/-- The symbol table (`Map<string, number>`); duplicate insertion never
happens because `assemble` checks `labels.has` first, so an association
list with first-match lookup is an exact model. -/
abbrev LabelMap := List (String × Nat)

def lmGet (L : LabelMap) (s : String) : Option Nat :=
  (L.find? (fun p => p.1 == s)).map (·.2)

def lmHas (L : LabelMap) (s : String) : Bool := (lmGet L s).isSome

def lmSet (L : LabelMap) (s : String) (v : Nat) : LabelMap := (s, v) :: L

/-- JavaScript whitespace as far as the assembler's inputs use it
(`trim`, `\s`). -/
def isWsC (c : Char) : Bool :=
  c == ' ' || c == '\t' || c == '\n' || c == '\r' || c == '\x0b' || c == '\x0c'

def isDigitC (c : Char) : Bool := 48 ≤ c.toNat && c.toNat ≤ 57

def isHexC (c : Char) : Bool :=
  isDigitC c || (97 ≤ c.toNat && c.toNat ≤ 102) || (65 ≤ c.toNat && c.toNat ≤ 70)

def isAlphaC (c : Char) : Bool :=
  (97 ≤ c.toNat && c.toNat ≤ 122) || (65 ≤ c.toNat && c.toNat ≤ 90)

/-- First character of `[A-Za-z_][A-Za-z0-9_]*`. -/
def isIdentStartC (c : Char) : Bool := isAlphaC c || c == '_'

/-- Subsequent characters of `[A-Za-z_][A-Za-z0-9_]*`. -/
def isIdentC (c : Char) : Bool := isAlphaC c || isDigitC c || c == '_'

/-- Full match of `/^[A-Za-z_][A-Za-z0-9_]*$/`. -/
def identL : Str → Bool
  | [] => false
  | c :: t => isIdentStartC c && t.all isIdentC

/-- JavaScript `String.prototype.trim`. -/
def trimL (l : Str) : Str :=
  (((l.dropWhile isWsC).reverse).dropWhile isWsC).reverse

def startsWithC (c : Char) : Str → Bool
  | x :: _ => x == c
  | [] => false

def hexDigitVal (c : Char) : Nat :=
  if isDigitC c then c.toNat - 48
  else if 97 ≤ c.toNat && c.toNat ≤ 102 then c.toNat - 87
  else c.toNat - 55

def hexValL (l : Str) : Nat := l.foldl (fun a c => a * 16 + hexDigitVal c) 0

def decValL (l : Str) : Nat := l.foldl (fun a c => a * 10 + (c.toNat - 48)) 0

/-- Model of JavaScript `parseInt(s, 16)`: skip leading whitespace, an
optional sign, an optional `0x`/`0X` prefix, then read the maximal run of
hex digits; `none` is `NaN` (no digits). -/
def jsParseIntHex (l : Str) : Option Int :=
  let l1 := l.dropWhile isWsC
  let sg : Int := match l1 with
    | '-' :: _ => -1
    | _ => 1
  let l2 : Str := match l1 with
    | '-' :: t => t
    | '+' :: t => t
    | _ => l1
  let l3 : Str := match l2 with
    | '0' :: x :: t => if x == 'x' || x == 'X' then t else l2
    | _ => l2
  let ds := l3.takeWhile isHexC
  if ds.isEmpty then none else some (sg * (hexValL ds : Int))

/-- Model of JavaScript `parseInt(s, 10)`. -/
def jsParseIntDec (l : Str) : Option Int :=
  let l1 := l.dropWhile isWsC
  let sg : Int := match l1 with
    | '-' :: _ => -1
    | _ => 1
  let l2 : Str := match l1 with
    | '-' :: t => t
    | '+' :: t => t
    | _ => l1
  let ds := l2.takeWhile isDigitC
  if ds.isEmpty then none else some (sg * (decValL ds : Int))

/-- JavaScript `ToInt32`, the coercion applied by the bitwise operators. -/
def toInt32 (n : Int) : Int :=
  if n % 4294967296 < 2147483648 then n % 4294967296
  else n % 4294967296 - 4294967296

/-- JavaScript `n >> k` (signed shift; `ediv` by a positive power of two is
floor division, which is what an arithmetic shift performs). -/
def jsShr (n : Int) (k : Nat) : Int := toInt32 n / 2 ^ k

/-- JavaScript `n & 0xFF`: the low byte of the two's-complement 32-bit
representation, always in `[0, 255]`. -/
def jsAnd255 (n : Int) : Int := toInt32 n % 256

/-- Lowercase hex digits of a natural number, as produced by JavaScript
`Number.prototype.toString(16)` for non-negative integers. -/
def natHexChars (n : Nat) : Str := Nat.toDigits 16 n

def intToHexJS (v : Option Int) : String :=
  match v with
  | none => "NaN"
  | some i =>
    if i < 0 then "-" ++ String.mk (natHexChars i.natAbs)
    else String.mk (natHexChars i.toNat)

/-- `parseValue` from `assembler.ts`: hex (`$…`), decimal, identifier
(symbol-table lookup) or 3-character quoted character literal; every other
shape is an error.  Errors are returned as the exact message strings the
source builds. -/
def parseValue (l : Str) (labels : LabelMap) (context : String) : Except String Int :=
  let s := trimL l
  if startsWithC '$' s then
    match jsParseIntHex (s.drop 1) with
    | none => .error ("Invalid hexadecimal value '" ++ String.mk s ++ "' for " ++ context)
    | some n => .ok n
  else if !s.isEmpty && s.all isDigitC then
    .ok (decValL s)
  else if identL s then
    match lmGet labels (String.mk s) with
    | none => .error ("Label '" ++ String.mk s ++ "' not found for " ++ context)
    | some v => .ok v
  else
    match s with
    | [a, c, b] =>
      if (a == '\'' && b == '\'') || (a == '"' && b == '"') then .ok (c.toNat : Int)
      else .error ("Invalid value format '" ++ String.mk s ++ "' for " ++ context)
    | _ => .error ("Invalid value format '" ++ String.mk s ++ "' for " ++ context)

/-- After one `.ascii`/`.asciiz` element: skip whitespace, then skip a
single comma if present (the tail of the `parseMixedValues` loop body). -/
def pmSkipComma (l : Str) : Str :=
  match l.dropWhile isWsC with
  | ',' :: t => t
  | r => r

theorem length_dropWhile_le (p : Char → Bool) (l : Str) :
    (l.dropWhile p).length ≤ l.length := by
  induction l with
  | nil => simp [List.dropWhile]
  | cons c t ih =>
    simp only [List.dropWhile]
    split
    · exact Nat.le_succ_of_le ih
    · simp

theorem length_pmSkipComma_le (l : Str) : (pmSkipComma l).length ≤ l.length := by
  have h := length_dropWhile_le isWsC l
  unfold pmSkipComma
  split
  · rename_i t heq
    rw [heq] at h
    simp at h
    omega
  · exact h

/-- The scanning loop of `parseMixedValues`: at a quote, take characters up
to the matching quote and push each character's code; otherwise take
characters up to the next comma and push the parsed byte value after a
0..255 range check.  The source's `while` loop is embedded with a fuel
parameter bounding the iteration count; every iteration consumes at least
one character, so `parseMixedValues` supplies `length + 1` fuel, which the
loop never exhausts. -/
def pmLoop (labels : LabelMap) (context : String) :
    Nat → Str → List Int → Except String (List Int)
  | 0, _, _ => .error ("Value scan did not terminate in " ++ context)
  | fuel + 1, l, acc =>
    match l.dropWhile isWsC with
    | [] => .ok acc
    | q :: rest =>
      if q == '"' || q == '\'' then
        match rest.dropWhile (· != q) with
        | [] => .error ("Unterminated string in " ++ context)
        | _ :: rest3 =>
          pmLoop labels context fuel (pmSkipComma rest3)
            (acc ++ (rest.takeWhile (· != q)).map (fun c => (c.toNat : Int)))
      else
        if (trimL ((q :: rest).takeWhile (· != ','))).isEmpty then
          .error ("Empty value in " ++ context)
        else
          match parseValue (trimL ((q :: rest).takeWhile (· != ','))) labels context with
          | .error e => .error e
          | .ok v =>
            if v < 0 || v > 255 then
              .error (context ++ " value '" ++
                String.mk (trimL ((q :: rest).takeWhile (· != ','))) ++
                "' out of range (0-255)")
            else
              pmLoop labels context fuel
                (pmSkipComma ((q :: rest).dropWhile (· != ','))) (acc ++ [v])

/-- `parseMixedValues` from `assembler.ts` (used by `.ascii`/`.asciiz`). -/
def parseMixedValues (l : Str) (labels : LabelMap) (context : String) :
    Except String (List Int) :=
  pmLoop labels context ((trimL l).length + 1) (trimL l) []

/-- JavaScript `String.prototype.split` with a single-character separator
(`""` splits to `[""]`, separators at the ends produce empty pieces). -/
def splitOnChar (sep : Char) : Str → List Str
  | [] => [[]]
  | c :: t =>
    if c == sep then [] :: splitOnChar sep t
    else
      match splitOnChar sep t with
      | [] => [[c]]
      | h :: r => (c :: h) :: r

def splitOnComma (l : Str) : List Str := splitOnChar ',' l

/-- The operand regular expressions of the `R` table in `opcodes.ts`, one
constructor per table entry (`labelX`/`labelY` are the inline
`/^[A-Za-z_][A-Za-z0-9_]*,X$/i` regexes of `createInstructionVariants`). -/
inductive Pat where
  | acc | imm | zpx | zpy | abx | aby | indx | indy | indAbs
  | zp | abs | label | rel | impl | labelX | labelY
deriving DecidableEq, Repr

/-- `$` followed by `lo`..`hi` hex digits and nothing else. -/
def isDollarHex (lo hi : Nat) : Str → Bool
  | '$' :: ds => ds.all isHexC && lo ≤ ds.length && ds.length ≤ hi
  | _ => false

/-- `$` followed by one or more hex digits (`\$[0-9A-Fa-f]+`). -/
def isDollarHexPlus : Str → Bool
  | '$' :: ds => !ds.isEmpty && ds.all isHexC
  | _ => false

/-- A run of `lo`..`hi` decimal digits. -/
def isDecRun (lo hi : Nat) (l : Str) : Bool :=
  !l.isEmpty && l.all isDigitC && lo ≤ l.length && l.length ≤ hi

/-- Strip a trailing `,x` (case-insensitive in the index register, as the
`/i` flag makes it) and return what precedes it. -/
def endsComma (x : Char) (l : Str) : Option Str :=
  match l.reverse with
  | c :: ',' :: r =>
    if c == x || c == x.toLower then some r.reverse else none
  | _ => none

/-- The capture group of `(\(…\))`: the text between outer parentheses. -/
def indInner (l : Str) : Option Str :=
  match l with
  | '(' :: rest =>
    match rest.reverse with
    | ')' :: innerRev => some innerRev.reverse
    | _ => none
  | _ => none

/-- The capture group of `\((…),X\)`. -/
def indXInner (l : Str) : Option Str :=
  match l with
  | '(' :: rest =>
    match rest.reverse with
    | ')' :: c :: ',' :: innerRev =>
      if c == 'X' || c == 'x' then some innerRev.reverse else none
    | _ => none
  | _ => none

/-- The capture group of `\((…)\),Y`. -/
def indYInner (l : Str) : Option Str :=
  match l with
  | '(' :: rest =>
    match rest.reverse with
    | c :: ',' :: ')' :: innerRev =>
      if c == 'Y' || c == 'y' then some innerRev.reverse else none
    | _ => none
  | _ => none

/-- The `(\$[0-9A-Fa-f]+|[A-Za-z_][A-Za-z0-9_]*)` alternation used inside
the indirect-mode regexes. -/
def grpOK (inner : Str) : Bool := isDollarHexPlus inner || identL inner

/-- `regex.test(operand)` for each entry of the `R` table. -/
def patTest : Pat → Str → Bool
  | .acc, l => l.isEmpty || l == ['A'] || l == ['a']
  | .imm, l =>
    match l with
    | '#' :: r => !r.isEmpty && r.all (· != '\n')
    | _ => false
  | .zpx, l =>
    match endsComma 'X' l with
    | some pre => isDollarHex 1 2 pre || isDecRun 1 3 pre
    | none => false
  | .zpy, l =>
    match endsComma 'Y' l with
    | some pre => isDollarHex 1 2 pre || isDecRun 1 3 pre
    | none => false
  | .abx, l =>
    match endsComma 'X' l with
    | some pre => isDollarHex 3 4 pre || identL pre
    | none => false
  | .aby, l =>
    match endsComma 'Y' l with
    | some pre => isDollarHex 3 4 pre || identL pre
    | none => false
  | .indx, l =>
    match indXInner l with
    | some inner => grpOK inner
    | none => false
  | .indy, l =>
    match indYInner l with
    | some inner => grpOK inner
    | none => false
  | .indAbs, l =>
    match indInner l with
    | some inner => grpOK inner
    | none => false
  | .zp, l => isDollarHex 1 2 l
  | .abs, l => isDollarHex 3 4 l
  | .label, l => identL l
  | .rel, l => identL l
  | .impl, l => l.isEmpty
  | .labelX, l =>
    match endsComma 'X' l with
    | some pre => identL pre
    | none => false
  | .labelY, l =>
    match endsComma 'Y' l with
    | some pre => identL pre
    | none => false

/-- The operand-resolver functions of `opcodes.ts`, one constructor per
function (the `'X'`/`'Y'` closures are separate constructors). -/
inductive Rk where
  | implied | accumulator | immediate | zeroPage | absolute
  | zpIdxX | zpIdxY | absIdxX | absIdxY
  | indirectX | indirectY | relLabel | indirectAbs
deriving DecidableEq, Repr

def strUpper (l : Str) : Str := l.map Char.toUpper

/-- The `parseNumericOrLabel` helper inside `resolveImmediate`. -/
def immNum (labels : LabelMap) (v : Str) : Except String Int :=
  if startsWithC '$' v then
    match jsParseIntHex (v.drop 1) with
    | none => .error ("Invalid hex value: " ++ String.mk v)
    | some n => .ok n
  else if !v.isEmpty && v.all isDigitC then
    .ok (decValL v)
  else if identL v then
    match lmGet labels (String.mk v) with
    | none => .error ("Label not found: " ++ String.mk v)
    | some a => .ok (a : Int)
  else .error ("Unrecognized value format for immediate: " ++ String.mk v)

/-- `resolveImmediate`: compute `finalValue` (`none` models `NaN`) or fail
early, then range-check 0..255. -/
def resolveImmediate (op : Str) (labels : LabelMap) : Except String (List Int) :=
  let fv : Except String (Option Int) :=
    match op with
    | '#' :: '<' :: rest =>
      match immNum labels (trimL rest) with
      | .error e => .error ("For low byte: " ++ e)
      | .ok v => .ok (some (jsAnd255 v))
    | '#' :: '>' :: rest =>
      match immNum labels (trimL rest) with
      | .error e => .error ("For high byte: " ++ e)
      | .ok v => .ok (some (jsAnd255 (jsShr v 8)))
    | '#' :: '$' :: rest => .ok (jsParseIntHex rest)
    | '#' :: rest =>
      if !rest.isEmpty && rest.all isDigitC then .ok (some (decValL rest))
      else if identL rest then
        match lmGet labels (String.mk rest) with
        | none => .error ("Label used as immediate constant not found: " ++ String.mk rest)
        | some a => .ok (some (a : Int))
      else .error ("Invalid immediate format: " ++ String.mk op)
    | _ => .error ("Invalid immediate format (must start with #): " ++ String.mk op)
  match fv with
  | .error e => .error e
  | .ok o =>
    match o with
    | none =>
      .error ("Immediate value out of range (0-255) or invalid: " ++ String.mk op ++
        " (parsed as NaN)")
    | some v =>
      if v < 0 || v > 255 then
        .error ("Immediate value out of range (0-255) or invalid: " ++ String.mk op ++
          " (parsed as " ++ intToHexJS (some v) ++ ")")
      else .ok [v]

/-- `resolveZeroPage` (hex / decimal / label; `none` models `NaN`). -/
def resolveZeroPage (op : Str) (labels : LabelMap) : Except String (List Int) :=
  let v : Except String (Option Int) :=
    if startsWithC '$' op then .ok (jsParseIntHex (op.drop 1))
    else if !op.isEmpty && op.all isDigitC then .ok (some (decValL op))
    else if identL op then
      match lmGet labels (String.mk op) with
      | none => .error ("Label not found for Zero Page: " ++ String.mk op)
      | some a => .ok (some (a : Int))
    else .error ("Invalid Zero Page format: " ++ String.mk op)
  match v with
  | .error e => .error e
  | .ok o =>
    match o with
    | some n =>
      if n < 0 || n > 255 then
        .error ("Zero Page address out of range (0-255): " ++ String.mk op)
      else .ok [n]
    | none => .error ("Zero Page address out of range (0-255): " ++ String.mk op)

/-- `resolveAbsolute` (hex / decimal / label, 16-bit range, little-endian
byte pair). -/
def resolveAbsolute (op : Str) (labels : LabelMap) : Except String (List Int) :=
  let v : Except String (Option Int) :=
    if startsWithC '$' op then .ok (jsParseIntHex (op.drop 1))
    else if !op.isEmpty && op.all isDigitC then .ok (some (decValL op))
    else if identL op then
      match lmGet labels (String.mk op) with
      | none => .error ("Label not found for Absolute address: " ++ String.mk op)
      | some a => .ok (some (a : Int))
    else .error ("Invalid Absolute address format: " ++ String.mk op)
  match v with
  | .error e => .error e
  | .ok o =>
    match o with
    | some n =>
      if n < 0 || n > 65535 then
        .error ("Absolute address out of range (0-65535): " ++ String.mk op)
      else .ok [jsAnd255 n, jsAnd255 (jsShr n 8)]
    | none => .error ("Absolute address out of range (0-65535): " ++ String.mk op)

/-- `resolveZeroPageIndexed(indexedChar)`. -/
def resolveZeroPageIndexed (x : Char) (op : Str) (labels : LabelMap) :
    Except String (List Int) :=
  let xs := String.mk [x]
  match splitOnComma op with
  | [p0, p1] =>
    if strUpper (trimL p1) == [x] then
      let ap := trimL p0
      let v : Except String (Option Int) :=
        if startsWithC '$' ap then .ok (jsParseIntHex (ap.drop 1))
        else if !ap.isEmpty && ap.all isDigitC then .ok (some (decValL ap))
        else if identL ap then
          match lmGet labels (String.mk ap) with
          | none =>
            .error ("Label not found for ZeroPage," ++ xs ++ ": " ++ String.mk ap)
          | some a => .ok (some (a : Int))
        else .error ("Invalid ZeroPage," ++ xs ++ " address format: " ++ String.mk ap)
      match v with
      | .error e => .error e
      | .ok o =>
        match o with
        | some n =>
          if n < 0 || n > 255 then
            .error ("ZeroPage," ++ xs ++ " address out of range (0-255): " ++ String.mk op)
          else .ok [n]
        | none =>
          .error ("ZeroPage," ++ xs ++ " address out of range (0-255): " ++ String.mk op)
    else
      .error ("Invalid format for ZeroPage," ++ xs ++ ". Expected 'ADDRESS," ++ xs ++
        "'. Got: " ++ String.mk op)
  | _ =>
    .error ("Invalid format for ZeroPage," ++ xs ++ ". Expected 'ADDRESS," ++ xs ++
      "'. Got: " ++ String.mk op)

/-- `resolveAbsoluteIndexed(indexedChar)`. -/
def resolveAbsoluteIndexed (x : Char) (op : Str) (labels : LabelMap) :
    Except String (List Int) :=
  let xs := String.mk [x]
  match splitOnComma op with
  | [p0, p1] =>
    if strUpper (trimL p1) == [x] then
      let ap := trimL p0
      let v : Except String (Option Int) :=
        if startsWithC '$' ap then .ok (jsParseIntHex (ap.drop 1))
        else if !ap.isEmpty && ap.all isDigitC then .ok (some (decValL ap))
        else if identL ap then
          match lmGet labels (String.mk ap) with
          | none =>
            .error ("Label not found for Absolute," ++ xs ++ ": " ++ String.mk ap)
          | some a => .ok (some (a : Int))
        else .error ("Invalid Absolute," ++ xs ++ " address format: " ++ String.mk ap)
      match v with
      | .error e => .error e
      | .ok o =>
        match o with
        | some n =>
          if n < 0 || n > 65535 then
            .error ("Absolute," ++ xs ++ " address out of range (0-65535): " ++ String.mk op)
          else .ok [jsAnd255 n, jsAnd255 (jsShr n 8)]
        | none =>
          .error ("Absolute," ++ xs ++ " address out of range (0-65535): " ++ String.mk op)
    else
      .error ("Invalid format for Absolute," ++ xs ++ ". Expected 'ADDRESS," ++ xs ++
        "'. Got: " ++ String.mk op)
  | _ =>
    .error ("Invalid format for Absolute," ++ xs ++ ". Expected 'ADDRESS," ++ xs ++
      "'. Got: " ++ String.mk op)

/-- `resolveIndirectX`. -/
def resolveIndirectX (op : Str) (labels : LabelMap) : Except String (List Int) :=
  match indXInner op with
  | some inner =>
    if grpOK inner then
      let v : Except String (Option Int) :=
        if startsWithC '$' inner then .ok (jsParseIntHex (inner.drop 1))
        else
          match lmGet labels (String.mk inner) with
          | none => .error ("Label not found for (Indirect,X): " ++ String.mk inner)
          | some a => .ok (some (a : Int))
      match v with
      | .error e => .error e
      | .ok o =>
        match o with
        | some n =>
          if n < 0 || n > 255 then
            .error ("(Indirect,X) base address out of Zero Page range (0-255): " ++
              String.mk op)
          else .ok [n]
        | none =>
          .error ("(Indirect,X) base address out of Zero Page range (0-255): " ++
            String.mk op)
    else .error ("Invalid (Indirect,X) format: " ++ String.mk op)
  | none => .error ("Invalid (Indirect,X) format: " ++ String.mk op)

/-- `resolveIndirectY`. -/
def resolveIndirectY (op : Str) (labels : LabelMap) : Except String (List Int) :=
  match indYInner op with
  | some inner =>
    if grpOK inner then
      let v : Except String (Option Int) :=
        if startsWithC '$' inner then .ok (jsParseIntHex (inner.drop 1))
        else
          match lmGet labels (String.mk inner) with
          | none => .error ("Label not found for (Indirect),Y: " ++ String.mk inner)
          | some a => .ok (some (a : Int))
      match v with
      | .error e => .error e
      | .ok o =>
        match o with
        | some n =>
          if n < 0 || n > 255 then
            .error ("(Indirect),Y base address out of Zero Page range (0-255): " ++
              String.mk op)
          else .ok [n]
        | none =>
          .error ("(Indirect),Y base address out of Zero Page range (0-255): " ++
            String.mk op)
    else .error ("Invalid (Indirect),Y format: " ++ String.mk op)
  | none => .error ("Invalid (Indirect),Y format: " ++ String.mk op)

/-- `resolveIndirectAbsolute`. -/
def resolveIndirectAbsolute (op : Str) (labels : LabelMap) : Except String (List Int) :=
  match indInner op with
  | some inner =>
    if grpOK inner then
      let v : Except String (Option Int) :=
        if startsWithC '$' inner then .ok (jsParseIntHex (inner.drop 1))
        else
          match lmGet labels (String.mk inner) with
          | none => .error ("Label not found for Indirect Absolute: " ++ String.mk inner)
          | some a => .ok (some (a : Int))
      match v with
      | .error e => .error e
      | .ok o =>
        match o with
        | some n =>
          if n < 0 || n > 65535 then
            .error ("Indirect Absolute address out of range (0-65535): " ++ String.mk op)
          else .ok [jsAnd255 n, jsAnd255 (jsShr n 8)]
        | none =>
          .error ("Indirect Absolute address out of range (0-65535): " ++ String.mk op)
    else .error ("Invalid Indirect Absolute format: " ++ String.mk op)
  | none => .error ("Invalid Indirect Absolute format: " ++ String.mk op)

/-- `resolveRelativeLabel`: signed offset from the end of the 2-byte
branch, rejected outside [-128, 127], emitted as `offset & 0xFF`. -/
def resolveRelativeLabel (op : Str) (labels : LabelMap) (addr : Nat) :
    Except String (List Int) :=
  match lmGet labels (String.mk op) with
  | none => .error ("Label not found for relative branch: " ++ String.mk op)
  | some t =>
    let offset : Int := (t : Int) - ((addr : Int) + 2)
    if offset < -128 || offset > 127 then
      .error ("Relative branch target out of range for label " ++ String.mk op ++
        " (offset " ++ toString offset ++ ")")
    else .ok [jsAnd255 offset]

/-- Dispatch on the resolver constructor (the `resolveOperand` field). -/
def resolveOperand (rk : Rk) (op : Str) (labels : LabelMap) (addr : Nat) :
    Except String (List Int) :=
  match rk with
  | .implied => .ok []
  | .accumulator =>
    if strUpper op == ['A'] || op.isEmpty then .ok []
    else .error "Accumulator addressing mode expects 'A' or empty operand."
  | .immediate => resolveImmediate op labels
  | .zeroPage => resolveZeroPage op labels
  | .absolute => resolveAbsolute op labels
  | .zpIdxX => resolveZeroPageIndexed 'X' op labels
  | .zpIdxY => resolveZeroPageIndexed 'Y' op labels
  | .absIdxX => resolveAbsoluteIndexed 'X' op labels
  | .absIdxY => resolveAbsoluteIndexed 'Y' op labels
  | .indirectX => resolveIndirectX op labels
  | .indirectY => resolveIndirectY op labels
  | .relLabel => resolveRelativeLabel op labels addr
  | .indirectAbs => resolveIndirectAbsolute op labels

/-- One row of the instruction table (`InstructionVariant`): mnemonic,
operand regex, opcode byte, full encoded size and resolver. -/
structure Variant where
  mnemonic : String
  pat : Pat
  opcode : Nat
  size : Nat
  resolver : Rk
deriving DecidableEq, Repr

/-- The optional opcode record passed to `createInstructionVariants`. -/
structure Opc where
  imm : Option Nat := none
  zp : Option Nat := none
  zpx : Option Nat := none
  zpy : Option Nat := none
  abs : Option Nat := none
  abx : Option Nat := none
  aby : Option Nat := none
  indx : Option Nat := none
  indy : Option Nat := none
  impl : Option Nat := none
  acc : Option Nat := none

def ov (o : Option Nat) (f : Nat → Variant) : List Variant :=
  match o with
  | some n => [f n]
  | none => []

/-- `createInstructionVariants` from `opcodes.ts`, with the pushes kept in
source order: imm, indx, indy, zpx, zpy, abx, aby, zp, abs, impl, acc,
then the bare-label variants (zero-page first), then the indexed label
variants. -/
def createInstructionVariants (m : String) (oc : Opc) : List Variant :=
  ov oc.imm (fun n => ⟨m, .imm, n, 2, .immediate⟩) ++
  ov oc.indx (fun n => ⟨m, .indx, n, 2, .indirectX⟩) ++
  ov oc.indy (fun n => ⟨m, .indy, n, 2, .indirectY⟩) ++
  ov oc.zpx (fun n => ⟨m, .zpx, n, 2, .zpIdxX⟩) ++
  ov oc.zpy (fun n => ⟨m, .zpy, n, 2, .zpIdxY⟩) ++
  ov oc.abx (fun n => ⟨m, .abx, n, 3, .absIdxX⟩) ++
  ov oc.aby (fun n => ⟨m, .aby, n, 3, .absIdxY⟩) ++
  ov oc.zp (fun n => ⟨m, .zp, n, 2, .zeroPage⟩) ++
  ov oc.abs (fun n => ⟨m, .abs, n, 3, .absolute⟩) ++
  ov oc.impl (fun n => ⟨m, .impl, n, 1, .implied⟩) ++
  ov oc.acc (fun n => ⟨m, .acc, n, 1, .accumulator⟩) ++
  (match oc.zp, oc.abs with
   | some z, some a => [⟨m, .label, z, 2, .zeroPage⟩, ⟨m, .label, a, 3, .absolute⟩]
   | some z, none => [⟨m, .label, z, 2, .zeroPage⟩]
   | none, some a => [⟨m, .label, a, 3, .absolute⟩]
   | none, none => []) ++
  (match oc.zpx, oc.abx with
   | some z, some a => [⟨m, .labelX, z, 2, .zpIdxX⟩, ⟨m, .labelX, a, 3, .absIdxX⟩]
   | _, _ => []) ++
  (match oc.zpy, oc.aby with
   | some z, some a => [⟨m, .labelY, z, 2, .zpIdxY⟩, ⟨m, .labelY, a, 3, .absIdxY⟩]
   | _, _ => [])

/-- The `instructionSet` list from `opcodes.ts`, in source order. -/
def instructionSet : List Variant :=
  createInstructionVariants "LDA"
    { imm := some 0xA9, zp := some 0xA5, zpx := some 0xB5, abs := some 0xAD,
      abx := some 0xBD, aby := some 0xB9, indx := some 0xA1, indy := some 0xB1 } ++
  createInstructionVariants "LDX"
    { imm := some 0xA2, zp := some 0xA6, zpy := some 0xB6, abs := some 0xAE,
      aby := some 0xBE } ++
  createInstructionVariants "LDY"
    { imm := some 0xA0, zp := some 0xA4, zpx := some 0xB4, abs := some 0xAC,
      abx := some 0xBC } ++
  createInstructionVariants "STA"
    { zp := some 0x85, zpx := some 0x95, abs := some 0x8D, abx := some 0x9D,
      aby := some 0x99, indx := some 0x81, indy := some 0x91 } ++
  createInstructionVariants "STX" { zp := some 0x86, zpy := some 0x96, abs := some 0x8E } ++
  createInstructionVariants "STY" { zp := some 0x84, zpx := some 0x94, abs := some 0x8C } ++
  createInstructionVariants "PHA" { impl := some 0x48 } ++
  createInstructionVariants "PLA" { impl := some 0x68 } ++
  createInstructionVariants "PHP" { impl := some 0x08 } ++
  createInstructionVariants "PLP" { impl := some 0x28 } ++
  createInstructionVariants "JMP" { abs := some 0x4C } ++
  [⟨"JMP", .indAbs, 0x6C, 3, .indirectAbs⟩] ++
  createInstructionVariants "JSR" { abs := some 0x20 } ++
  createInstructionVariants "RTS" { impl := some 0x60 } ++
  createInstructionVariants "BRK" { impl := some 0x00 } ++
  createInstructionVariants "NOP" { impl := some 0xEA } ++
  [⟨"BPL", .rel, 0x10, 2, .relLabel⟩,
   ⟨"BMI", .rel, 0x30, 2, .relLabel⟩,
   ⟨"BVC", .rel, 0x50, 2, .relLabel⟩,
   ⟨"BVS", .rel, 0x70, 2, .relLabel⟩,
   ⟨"BCC", .rel, 0x90, 2, .relLabel⟩,
   ⟨"BCS", .rel, 0xB0, 2, .relLabel⟩,
   ⟨"BNE", .rel, 0xD0, 2, .relLabel⟩,
   ⟨"BEQ", .rel, 0xF0, 2, .relLabel⟩] ++
  createInstructionVariants "ADC"
    { imm := some 0x69, zp := some 0x65, zpx := some 0x75, abs := some 0x6D,
      abx := some 0x7D, aby := some 0x79, indx := some 0x61, indy := some 0x71 } ++
  createInstructionVariants "SBC"
    { imm := some 0xE9, zp := some 0xE5, zpx := some 0xF5, abs := some 0xED,
      abx := some 0xFD, aby := some 0xF9, indx := some 0xE1, indy := some 0xF1 } ++
  createInstructionVariants "CMP"
    { imm := some 0xC9, zp := some 0xC5, zpx := some 0xD5, abs := some 0xCD,
      abx := some 0xDD, aby := some 0xD9, indx := some 0xC1, indy := some 0xD1 } ++
  createInstructionVariants "CPX" { imm := some 0xE0, zp := some 0xE4, abs := some 0xEC } ++
  createInstructionVariants "CPY" { imm := some 0xC0, zp := some 0xC4, abs := some 0xCC } ++
  createInstructionVariants "INC"
    { zp := some 0xE6, zpx := some 0xF6, abs := some 0xEE, abx := some 0xFE } ++
  createInstructionVariants "DEC"
    { zp := some 0xC6, zpx := some 0xD6, abs := some 0xCE, abx := some 0xDE } ++
  createInstructionVariants "INX" { impl := some 0xE8 } ++
  createInstructionVariants "INY" { impl := some 0xC8 } ++
  createInstructionVariants "DEX" { impl := some 0xCA } ++
  createInstructionVariants "DEY" { impl := some 0x88 } ++
  createInstructionVariants "ASL"
    { acc := some 0x0A, zp := some 0x06, zpx := some 0x16, abs := some 0x0E,
      abx := some 0x1E } ++
  createInstructionVariants "LSR"
    { acc := some 0x4A, zp := some 0x46, zpx := some 0x56, abs := some 0x4E,
      abx := some 0x5E } ++
  createInstructionVariants "ROL"
    { acc := some 0x2A, zp := some 0x26, zpx := some 0x36, abs := some 0x2E,
      abx := some 0x3E } ++
  createInstructionVariants "ROR"
    { acc := some 0x6A, zp := some 0x66, zpx := some 0x76, abs := some 0x6E,
      abx := some 0x7E } ++
  createInstructionVariants "AND"
    { imm := some 0x29, zp := some 0x25, zpx := some 0x35, abs := some 0x2D,
      abx := some 0x3D, aby := some 0x39, indx := some 0x21, indy := some 0x31 } ++
  createInstructionVariants "EOR"
    { imm := some 0x49, zp := some 0x45, zpx := some 0x55, abs := some 0x4D,
      abx := some 0x5D, aby := some 0x59, indx := some 0x41, indy := some 0x51 } ++
  createInstructionVariants "ORA"
    { imm := some 0x09, zp := some 0x05, zpx := some 0x15, abs := some 0x0D,
      abx := some 0x1D, aby := some 0x19, indx := some 0x01, indy := some 0x11 } ++
  createInstructionVariants "BIT" { zp := some 0x24, abs := some 0x2C } ++
  createInstructionVariants "CLC" { impl := some 0x18 } ++
  createInstructionVariants "SEC" { impl := some 0x38 } ++
  createInstructionVariants "CLI" { impl := some 0x58 } ++
  createInstructionVariants "SEI" { impl := some 0x78 } ++
  createInstructionVariants "CLD" { impl := some 0xD8 } ++
  createInstructionVariants "SED" { impl := some 0xF8 } ++
  createInstructionVariants "CLV" { impl := some 0xB8 } ++
  createInstructionVariants "TAX" { impl := some 0xAA } ++
  createInstructionVariants "TXA" { impl := some 0x8A } ++
  createInstructionVariants "TAY" { impl := some 0xA8 } ++
  createInstructionVariants "TYA" { impl := some 0x98 } ++
  createInstructionVariants "TSX" { impl := some 0xBA } ++
  createInstructionVariants "TXS" { impl := some 0x9A }

/-- The candidate-variant filter of Pass 1 (mnemonic match plus
`regex.test(operand)`). -/
def candidatesFor (m : String) (operand : Str) : List Variant :=
  instructionSet.filter (fun v => v.mnemonic == m && patTest v.pat operand)

/-- The uniform Pass-1 diagnostic template the source repeats at every
Pass-1 error site: `Line N: <message>. Original line: '<text>'`. -/
def fmt1 (n : Nat) (msg text : String) : String :=
  "Line " ++ toString n ++ ": " ++ msg ++ ". Original line: '" ++ text ++ "'"

/-- The uniform Pass-2 diagnostic template (note `Original:`, not
`Original line:`): `Line N: <message>. Original: '<text>'`. -/
def fmt2 (n : Nat) (msg text : String) : String :=
  "Line " ++ toString n ++ ": " ++ msg ++ ". Original: '" ++ text ++ "'"

/-- Match of `/^([A-Za-z_][A-Za-z0-9_]*):/` and the subsequent
`substring(match[0].length)`: the label and the text after the colon.  The
identifier run is maximal; backtracking cannot help because `:` is not an
identifier character. -/
def matchLabel (l : Str) : Option (String × Str) :=
  match l with
  | c :: t =>
    if isIdentStartC c then
      match t.dropWhile isIdentC with
      | ':' :: r => some (String.mk (c :: t.takeWhile isIdentC), r)
      | _ => none
    else none
  | [] => none

/-- First alternative of `ORG_REGEX_FULL`, `^\*\s*=\s*\$([0-9A-Fa-f]{1,4})`:
anchored at the start only, so trailing text is ignored and the greedy
`{1,4}` takes at most four hex digits. -/
def orgStar (l : Str) : Option Nat :=
  match l with
  | '*' :: t =>
    match t.dropWhile isWsC with
    | '=' :: t2 =>
      match t2.dropWhile isWsC with
      | '$' :: t4 =>
        let ds := (t4.takeWhile isHexC).take 4
        if ds.isEmpty then none else some (hexValL ds)
      | _ => none
    | _ => none
  | _ => none

/-- Second alternative of `ORG_REGEX_FULL`, `\.org\s+\$([0-9A-Fa-f]{1,4})$`
(with `/i`), tested at one position: anchored at the end only, so the rest
of the string after `$` must be one to four hex digits. -/
def orgTailAt (l : Str) : Option Nat :=
  match l with
  | c1 :: c2 :: c3 :: c4 :: t =>
    if c1 == '.' && (c2 == 'o' || c2 == 'O') && (c3 == 'r' || c3 == 'R') &&
        (c4 == 'g' || c4 == 'G') then
      match t with
      | w :: _ =>
        if isWsC w then
          match t.dropWhile isWsC with
          | '$' :: ds =>
            if !ds.isEmpty && ds.all isHexC && ds.length ≤ 4 then some (hexValL ds)
            else none
          | _ => none
        else none
      | [] => none
    else none
  | _ => none

/-- The leftmost position at which the second `ORG_REGEX_FULL` alternative
matches (regex search order). -/
def orgSearch : Str → Option Nat
  | [] => none
  | l@(_ :: t) =>
    match orgTailAt l with
    | some v => some v
    | none => orgSearch t

/-- `line.match(ORG_REGEX_FULL)` with the captured hex value: alternative 1
can only fire at position 0; otherwise the leftmost alternative-2 match is
taken. -/
def orgFull (l : Str) : Option Nat :=
  match orgStar l with
  | some v => some v
  | none => orgSearch l

/-- `ORG_REGEX_PART`, `/^(\.org)\s+\$([0-9A-Fa-f]{1,4})$/i`: fully
anchored, which is exactly `orgTailAt` applied at position 0. -/
def orgPart (l : Str) : Option Nat := orgTailAt l

/-- `STAR_ORG_REGEX_PART`, `/^\*\s*=\s*\$([0-9A-Fa-f]{1,4})$/i`: like
`orgStar` but the hex digits must run to the end of the string. -/
def orgStarAnchored (l : Str) : Option Nat :=
  match l with
  | '*' :: t =>
    match t.dropWhile isWsC with
    | '=' :: t2 =>
      match t2.dropWhile isWsC with
      | '$' :: t4 =>
        if !t4.isEmpty && t4.all isHexC && t4.length ≤ 4 then some (hexValL t4)
        else none
      | _ => none
    | _ => none
  | _ => none

/-- Case-insensitive literal prefix match, returning the remainder. -/
def stripPrefixCI : Str → Str → Option Str
  | [], l => some l
  | _ :: _, [] => none
  | c :: n, x :: t => if x.toLower == c.toLower then stripPrefixCI n t else none

/-- The directive regexes `/^(\.RES)\s+(.+)$/i` etc.: the directive word,
one or more whitespace characters, then the rest of the (already trimmed)
line, which must be non-empty. -/
def dirRest (name : String) (l : Str) : Option Str :=
  match stripPrefixCI name.toList l with
  | some r =>
    match r with
    | w :: _ =>
      if isWsC w then
        let c := r.dropWhile isWsC
        if c.isEmpty then none else some c
      else none
    | [] => none
  | none => none

/-- `INSTRUCTION_REGEX`, `/^([A-Za-z]{3})\s*(.*)$/`: three letters,
upper-cased, and the trimmed remainder as operand text. -/
def instrMatch (l : Str) : Option (String × Str) :=
  match l with
  | a :: b :: c :: t =>
    if isAlphaC a && isAlphaC b && isAlphaC c then
      some (String.mk [a.toUpper, b.toUpper, c.toUpper], trimL (t.dropWhile isWsC))
    else none
  | _ => none

/-- The `parsedLines` records built by Pass 1 (`ParsedLine` in
`types.ts`). -/
inductive ParsedLine where
  | comment (lineNumber : Nat) (originalLine : String) (address : Nat)
  | labelDef (lineNumber : Nat) (originalLine : String) (address : Nat) (label : String)
  | org (lineNumber : Nat) (originalLine : String) (address : Nat) (value : Nat)
  | res (lineNumber : Nat) (originalLine : String) (address : Nat)
      (label : Option String) (size : Nat)
  | byteDir (lineNumber : Nat) (originalLine : String) (address : Nat)
      (label : Option String) (values : List Int)
  | wordDir (lineNumber : Nat) (originalLine : String) (address : Nat)
      (label : Option String) (valueStrings : List String)
  | dwordDir (lineNumber : Nat) (originalLine : String) (address : Nat)
      (label : Option String) (valueStrings : List String)
  | asciiDir (lineNumber : Nat) (originalLine : String) (address : Nat)
      (label : Option String) (values : List Int)
  | asciizDir (lineNumber : Nat) (originalLine : String) (address : Nat)
      (label : Option String) (values : List Int)
  | instr (lineNumber : Nat) (originalLine : String) (address : Nat)
      (mnemonic : String) (operand : Str) (variant : Variant)
      (candidates : List Variant)
deriving DecidableEq, Repr

/-- Pass-1 state: symbol table, records so far, location counter. -/
structure P1 where
  labels : LabelMap := []
  plines : List ParsedLine := []
  addr : Nat := 0
deriving Repr

/-- Resolve the `.byte` value list in Pass 1 (the loop over
`byteMatch[2].split(',')`). -/
def byteValues (labels : LabelMap) (pieces : List Str) : Except (String × String) (List Int) :=
  match pieces with
  | [] => .ok []
  | v :: rest =>
    match parseValue v labels ".byte value" with
    | .error e => .error (e, "")
    | .ok n =>
      if n < 0 || n > 255 then
        .error (".byte value '" ++ String.mk (trimL v) ++ "' out of range (0-255)", "range")
      else
        match byteValues labels rest with
        | .error e => .error e
        | .ok ns => .ok (n :: ns)

/-- Which origin regex applies, depending on whether the line carried a
label: the one-ended `ORG_REGEX_FULL` for unlabeled lines, the fully
anchored `ORG_REGEX_PART` / `STAR_ORG_REGEX_PART` pair after a label. -/
def orgvFor (lbl : Option String) (content : Str) : Option Nat :=
  match lbl with
  | none => orgFull content
  | some _ =>
    match orgPart content with
    | some v => some v
    | none => orgStarAnchored content

/-- Process the part of a line that follows an optional label (steps 5-10
of the Pass-1 loop body: origin, `.res`, `.byte`, `.word`, `.dword`,
`.ascii`, `.asciiz`, instruction, or a syntax error). -/
def p1Content (st : P1) (ln : Nat) (orig : String) (lbl : Option String) (content : Str) :
    Except String P1 :=
  match orgvFor lbl content with
  | some v =>
    .ok { st with addr := v, plines := st.plines ++ [.org ln orig v v] }
  | none =>
    match dirRest ".res" content with
    | some cstr =>
      match parseValue (trimL cstr) st.labels ".res count" with
      | .error e => .error (fmt1 ln e orig)
      | .ok count =>
        if count < 0 then
          .error (fmt1 ln (".res count cannot be negative: " ++ String.mk (trimL cstr)) orig)
        else
          .ok { st with
                addr := st.addr + count.toNat,
                plines := st.plines ++ [.res ln orig st.addr lbl count.toNat] }
    | none =>
      match dirRest ".byte" content with
      | some cstr =>
        match byteValues st.labels (splitOnComma cstr) with
        | .error (e, _) => .error (fmt1 ln e orig)
        | .ok vs =>
          .ok { st with
                addr := st.addr + vs.length,
                plines := st.plines ++ [.byteDir ln orig st.addr lbl vs] }
      | none =>
        match dirRest ".word" content with
        | some cstr =>
          .ok { st with
                addr := st.addr + ((splitOnComma cstr).map (fun s => String.mk (trimL s))).length * 2,
                plines := st.plines ++ [.wordDir ln orig st.addr lbl
                  ((splitOnComma cstr).map (fun s => String.mk (trimL s)))] }
        | none =>
          match dirRest ".dword" content with
          | some cstr =>
            .ok { st with
                  addr := st.addr + ((splitOnComma cstr).map (fun s => String.mk (trimL s))).length * 4,
                  plines := st.plines ++ [.dwordDir ln orig st.addr lbl
                    ((splitOnComma cstr).map (fun s => String.mk (trimL s)))] }
          | none =>
            match dirRest ".ascii" content with
            | some cstr =>
              match parseMixedValues cstr st.labels ".ascii" with
              | .error e => .error (fmt1 ln e orig)
              | .ok vs =>
                .ok { st with
                      addr := st.addr + vs.length,
                      plines := st.plines ++ [.asciiDir ln orig st.addr lbl vs] }
            | none =>
              match dirRest ".asciiz" content with
              | some cstr =>
                match parseMixedValues cstr st.labels ".asciiz" with
                | .error e => .error (fmt1 ln e orig)
                | .ok vs =>
                  .ok { st with
                        addr := st.addr + vs.length + 1,
                        plines := st.plines ++ [.asciizDir ln orig st.addr lbl vs] }
              | none =>
                match instrMatch content with
                | some (mn, operand) =>
                  match (candidatesFor mn operand).head? with
                  | some v =>
                    .ok { st with
                          addr := st.addr + v.size,
                          plines := st.plines ++
                            [.instr ln orig st.addr mn operand v (candidatesFor mn operand)] }
                  | none =>
                    .error (fmt1 ln ("Unknown instruction or addressing mode for '" ++
                      mn ++ (if operand.isEmpty then "" else " " ++ String.mk operand) ++
                      "' from content '" ++ String.mk content ++ "'") orig)
                | none =>
                  .error (fmt1 ln ("Syntax error or unrecognized statement: '" ++
                    String.mk content ++ "'") orig)

/-- One iteration of the Pass-1 loop: comment/empty handling, end-of-line
comment stripping, label processing, then `p1Content`. -/
def pass1Line (st : P1) (ln : Nat) (origL : Str) : Except String P1 :=
  let orig := String.mk origL
  let p0 := trimL origL
  if startsWithC ';' p0 || p0.isEmpty then
    .ok { st with plines := st.plines ++ [.comment ln orig st.addr] }
  else
    let p1 := if p0.contains ';' then trimL (p0.takeWhile (· != ';')) else p0
    if p1.isEmpty then
      .ok { st with plines := st.plines ++ [.comment ln orig st.addr] }
    else
      match matchLabel p1 with
      | some (lab, rest0) =>
        if lmHas st.labels lab then
          .error (fmt1 ln ("Duplicate label '" ++ lab ++ "' defined") orig)
        else
          let st1 : P1 :=
            { st with
              labels := lmSet st.labels lab st.addr,
              plines := st.plines ++ [.labelDef ln orig st.addr lab] }
          let content := trimL rest0
          if content.isEmpty then .ok st1
          else p1Content st1 ln orig (some lab) content
      | none => p1Content st ln orig none p1

/-- The Pass-1 loop over the enumerated source lines. -/
def p1Go (st : P1) (i : Nat) (ls : List Str) : Except String P1 :=
  match ls with
  | [] => .ok st
  | l :: rest =>
    match pass1Line st (i + 1) l with
    | .error e => .error e
    | .ok st' => p1Go st' (i + 1) rest

/-- Pass 1 of `assemble`: split on newlines and fold. -/
def pass1 (code : String) : Except String P1 :=
  p1Go {} 0 (splitOnChar '\n' code.toList)

/-- The Pass-2 "smart instruction selection": when several candidates
exist and the operand is a bare identifier bound in the symbol table,
re-select a 2-byte variant for addresses ≤ 0xFF and a 3-byte variant
otherwise. -/
def finalVariantFor (labels : LabelMap) (operand : Str) (variant : Variant)
    (cands : List Variant) : Variant :=
  if cands.length > 1 then
    if identL operand then
      match lmGet labels (String.mk operand) with
      | some v =>
        if v ≤ 255 then
          match cands.find? (fun c => c.size == 2) with
          | some z => z
          | none => variant
        else
          match cands.find? (fun c => c.size == 3) with
          | some a => a
          | none => variant
      | none => variant
    else variant
  else variant

/-- Pass-2 emission for one `.word` directive: resolve each stored value
string, range-check 0..0xFFFF, emit low byte then high byte. -/
def emitWords (labels : LabelMap) (ln : Nat) (orig : String) :
    List String → Except String (List Int)
  | [] => .ok []
  | s :: rest =>
    match parseValue s.toList labels ".word value" with
    | .error e => .error (fmt2 ln e orig)
    | .ok v =>
      if v < 0 || v > 65535 then
        .error (fmt2 ln (".word value '" ++ s ++ "' out of range (0-65535)") orig)
      else
        match emitWords labels ln orig rest with
        | .error e => .error e
        | .ok bs => .ok ([jsAnd255 v, jsAnd255 (jsShr v 8)] ++ bs)

/-- Pass-2 emission for one `.dword` directive: four bytes, least
significant first. -/
def emitDwords (labels : LabelMap) (ln : Nat) (orig : String) :
    List String → Except String (List Int)
  | [] => .ok []
  | s :: rest =>
    match parseValue s.toList labels ".dword value" with
    | .error e => .error (fmt2 ln e orig)
    | .ok v =>
      if v < 0 || v > 4294967295 then
        .error (fmt2 ln (".dword value '" ++ s ++ "' out of range (0-4294967295)") orig)
      else
        match emitDwords labels ln orig rest with
        | .error e => .error e
        | .ok bs =>
          .ok ([jsAnd255 v, jsAnd255 (jsShr v 8), jsAnd255 (jsShr v 16),
            jsAnd255 (jsShr v 24)] ++ bs)

/-- Pass-2 emission for one parsed-line record (the body of the Pass-2
loop; `.org`, `.res`, labels and comments emit nothing). -/
def emitLine (labels : LabelMap) (p : ParsedLine) : Except String (List Int) :=
  match p with
  | .instr ln orig addr mn operand variant cands =>
    let fv := finalVariantFor labels operand variant cands
    match resolveOperand fv.resolver operand labels addr with
    | .error e =>
      .error (fmt2 ln ("Error resolving operand '" ++ String.mk operand ++ "' for " ++
        mn ++ ": " ++ e) orig)
    | .ok bs =>
      let bytes := ((fv.opcode : Int) :: bs)
      if bytes.length != fv.size then
        .error (fmt2 ln ("Internal error - instruction size mismatch for " ++ mn ++
          " " ++ String.mk operand ++ ". Expected " ++ toString fv.size ++ ", got " ++
          toString bytes.length) orig)
      else .ok bytes
  | .byteDir _ _ _ _ vs => .ok vs
  | .wordDir ln orig _ _ strs => emitWords labels ln orig strs
  | .dwordDir ln orig _ _ strs => emitDwords labels ln orig strs
  | .asciiDir _ _ _ _ vs => .ok vs
  | .asciizDir _ _ _ _ vs => .ok (vs ++ [0])
  | _ => .ok []

/-- The Pass-2 loop. -/
def pass2 (labels : LabelMap) : List ParsedLine → Except String (List Int)
  | [] => .ok []
  | p :: rest =>
    match emitLine labels p with
    | .error e => .error e
    | .ok bs =>
      match pass2 labels rest with
      | .error e => .error e
      | .ok more => .ok (bs ++ more)

/-- The `AssembleResult` record: machine-code bytes and optional error. -/
structure AssembleResult where
  machineCode : List Int
  error : Option String
deriving DecidableEq, Repr

/-- The public `assemble` entry point: Pass 1 then Pass 2; every error
aborts with empty machine code. -/
def assemble (code : String) : AssembleResult :=
  match pass1 code with
  | .error e => ⟨[], some e⟩
  | .ok st =>
    match pass2 st.labels st.plines with
    | .error e => ⟨[], some e⟩
    | .ok mc => ⟨mc, none⟩

/-- The sizes of the provisional variants Pass 1 chose for the instruction
records, in order (`none` when Pass 1 fails). -/
def p1InstrSizes (code : String) : Option (List Nat) :=
  match pass1 code with
  | .ok st =>
    some (st.plines.filterMap (fun p =>
      match p with
      | .instr _ _ _ _ _ v _ => some v.size
      | _ => none))
  | .error _ => none

/-- The sizes of the variants Pass 2 finally selects (via
`finalVariantFor`) for the instruction records, in order. -/
def p2FinalSizes (code : String) : Option (List Nat) :=
  match pass1 code with
  | .ok st =>
    some (st.plines.filterMap (fun p =>
      match p with
      | .instr _ _ _ _ operand v cands =>
        some (finalVariantFor st.labels operand v cands).size
      | _ => none))
  | .error _ => none

/-! ### General lemmas about the embedding -/

theorem jsAnd255_nonneg (n : Int) : 0 ≤ jsAnd255 n := by
  unfold jsAnd255 toInt32
  split <;> exact Int.emod_nonneg _ (by norm_num)

theorem jsAnd255_le (n : Int) : jsAnd255 n ≤ 255 := by
  unfold jsAnd255 toInt32
  split <;> omega

theorem toInt32_of_small (n : Int) (h0 : -2147483648 ≤ n) (h1 : n < 2147483648) :
    toInt32 n = n := by
  unfold toInt32
  omega

/-! ### C10: the origin regex is anchored at only one end -/

/-- C10: an unlabeled line ending in `.org $HHHH` (with arbitrary text
before it) and an unlabeled line starting with `* = $HHHH` (with arbitrary
trailing text) are both accepted as origin directives setting the location
counter to HHHH, even though neither matches the fully anchored forms; here
witnessed by `JMP` to a label placed right after each sloppy origin. -/
theorem c10_org_regex_one_ended :
    assemble "junk .org $0210\nfoo:\nJMP foo" = ⟨[0x4C, 0x10, 0x02], none⟩ ∧
    assemble "* = $0220 trailing\nbar:\nJMP bar" = ⟨[0x4C, 0x20, 0x02], none⟩ ∧
    orgPart (String.toList "junk .org $0210") = none ∧
    orgStarAnchored (String.toList "* = $0220 trailing") = none := by
  refine ⟨?_, ?_, ?_, ?_⟩ <;> decide

/-! ### C2: Pass 2 does not preserve the Pass-1 size -/

/-- C2 fails on the code: for `LDA data` with `data` bound above the zero
page, Pass 1 sizes the instruction at 2 bytes (the zero-page label variant
is the first match) but Pass 2 re-selects the 3-byte absolute variant, and
assembly still succeeds — the sizes disagree, so every following Pass-1
address is wrong (the emitted operand `$0202` actually points at the last
opcode byte, not at the data byte). -/
theorem c2_size_invariant_broken :
    p1InstrSizes ".org $0200\nLDA data\ndata: .byte 7" = some [2] ∧
    p2FinalSizes ".org $0200\nLDA data\ndata: .byte 7" = some [3] ∧
    assemble ".org $0200\nLDA data\ndata: .byte 7" = ⟨[0xAD, 0x02, 0x02, 0x07], none⟩ := by
  refine ⟨?_, ?_, ?_⟩ <;> decide

/-! ### C7: any error yields empty machine code -/

/-- C7: whenever the result carries an error, the machine-code list is
empty (every error site returns `{machineCode: [], error}`), and the
reported diagnostic is the first error in processing order (in the second
conjunct line 1's range error is reported, not line 2's unknown label). -/
theorem c7_error_empty_output :
    (∀ code : String, (assemble code).error.isSome → (assemble code).machineCode = []) ∧
    assemble ".byte 300\n.byte nope" =
      ⟨[], some "Line 1: .byte value '300' out of range (0-255). Original line: '.byte 300'"⟩ := by
  constructor
  · intro code h
    unfold assemble at h ⊢
    split at h
    · rfl
    · split at h
      · rfl
      · simp at h
  · decide

/-- Witness for C7 at a concrete failing input. -/
theorem c7_error_empty_output_witness :
    (assemble ".byte 300\n.byte nope").error.isSome = true ∧
    (assemble ".byte 300\n.byte nope").machineCode = [] :=
  ⟨by decide, c7_error_empty_output.1 ".byte 300\n.byte nope" (by decide)⟩

/-! ### Which operand patterns a bare identifier can match -/

theorem identL_parts (l : Str) (h : identL l = true) :
    ∃ c t, l = c :: t ∧ isIdentStartC c = true ∧ t.all isIdentC = true := by
  cases l with
  | nil => simp [identL] at h
  | cons c t =>
    simp [identL] at h
    exact ⟨c, t, rfl, h.1, by simpa using h.2⟩

theorem identL_comma_not_mem (l : Str) (h : identL l = true) : ',' ∉ l := by
  obtain ⟨c, t, rfl, hc, ht⟩ := identL_parts l h
  intro hmem
  rcases List.mem_cons.mp hmem with he | hmt
  · rw [← he] at hc
    exact absurd hc (by decide)
  · have := (List.all_eq_true.mp ht) ',' hmt
    exact absurd this (by decide)

theorem patTest_imm_false (c : Char) (t : Str) (hc : c ≠ '#') :
    patTest .imm (c :: t) = false := by
  simp only [patTest]
  split
  · rename_i heq
    cases heq
    exact absurd rfl hc
  · rfl

theorem isDollarHex_false (lo hi : Nat) (c : Char) (t : Str) (hc : c ≠ '$') :
    isDollarHex lo hi (c :: t) = false := by
  simp only [isDollarHex]
  split
  · rename_i heq
    cases heq
    exact absurd rfl hc
  · rfl

theorem indInner_none (c : Char) (t : Str) (hc : c ≠ '(') :
    indInner (c :: t) = none := by
  simp only [indInner]
  split
  · rename_i heq
    cases heq
    exact absurd rfl hc
  · rfl

theorem indXInner_none (c : Char) (t : Str) (hc : c ≠ '(') :
    indXInner (c :: t) = none := by
  simp only [indXInner]
  split
  · rename_i heq
    cases heq
    exact absurd rfl hc
  · rfl

theorem indYInner_none (c : Char) (t : Str) (hc : c ≠ '(') :
    indYInner (c :: t) = none := by
  simp only [indYInner]
  split
  · rename_i heq
    cases heq
    exact absurd rfl hc
  · rfl

theorem endsComma_none (x : Char) (l : Str) (hnc : ',' ∉ l) :
    endsComma x l = none := by
  unfold endsComma
  split
  · rename_i c r heq
    exfalso
    apply hnc
    have : ',' ∈ l.reverse := by rw [heq]; simp
    simpa using this
  · rfl

/-- A bare identifier other than `A`/`a` matches exactly the two
bare-label operand regexes (`R.LABEL` and `R.RELATIVE`). -/
theorem patTest_ident (s : Str) (h : identL s = true) (hA : s ≠ ['A']) (ha : s ≠ ['a'])
    (p : Pat) : patTest p s = (p == Pat.label || p == Pat.rel) := by
  obtain ⟨c, t, hs, hc, ht⟩ := identL_parts s h
  have h1 : c ≠ '#' := fun he => absurd hc (by rw [he]; decide)
  have h2 : c ≠ '$' := fun he => absurd hc (by rw [he]; decide)
  have h3 : c ≠ '(' := fun he => absurd hc (by rw [he]; decide)
  have hnc : ',' ∉ s := identL_comma_not_mem s h
  have hbA : (s == ['A']) = false := by
    rw [beq_eq_false_iff_ne]
    exact hA
  have hba : (s == ['a']) = false := by
    rw [beq_eq_false_iff_ne]
    exact ha
  cases p with
  | acc =>
    subst hs
    simp only [patTest, List.isEmpty_cons, hbA, hba]
    rfl
  | imm => rw [hs, patTest_imm_false c t h1]; rfl
  | zpx => simp only [patTest, endsComma_none 'X' s hnc]; rfl
  | zpy => simp only [patTest, endsComma_none 'Y' s hnc]; rfl
  | abx => simp only [patTest, endsComma_none 'X' s hnc]; rfl
  | aby => simp only [patTest, endsComma_none 'Y' s hnc]; rfl
  | indx => rw [hs]; simp only [patTest, indXInner_none c t h3]; rfl
  | indy => rw [hs]; simp only [patTest, indYInner_none c t h3]; rfl
  | indAbs => rw [hs]; simp only [patTest, indInner_none c t h3]; rfl
  | zp => rw [hs]; simp only [patTest, isDollarHex_false 1 2 c t h2]; rfl
  | abs => rw [hs]; simp only [patTest, isDollarHex_false 3 4 c t h2]; rfl
  | label => simp only [patTest, h]; rfl
  | rel => simp only [patTest, h]; rfl
  | impl => rw [hs]; simp only [patTest, List.isEmpty_cons]; rfl
  | labelX => simp only [patTest, endsComma_none 'X' s hnc]; rfl
  | labelY => simp only [patTest, endsComma_none 'Y' s hnc]; rfl

/-- Decidable form of the C1 selection property, checked over the whole
instruction table: among the variants of a mnemonic that match a bare
label, if both a 2-byte and a 3-byte variant occur then the first one is
the 2-byte zero-page variant. -/
def c1check (mn : String) : Bool :=
  let c := instructionSet.filter
    (fun v => v.mnemonic == mn && (v.pat == Pat.label || v.pat == Pat.rel))
  !(c.any (fun v => v.size == 2)) || !(c.any (fun v => v.size == 3)) ||
    (match c.head? with
     | some v => v.size == 2 && v.pat == Pat.label && v.resolver == Rk.zeroPage
     | none => false)

set_option maxRecDepth 100000 in
theorem c1check_all : instructionSet.all (fun w => c1check w.mnemonic) = true := by decide

/-! ### C1 -/

/-- C1 is false on the code: in `\n.org $0200\nLDA data\ndata: .byte 7\n` the
operand `data` is a forward reference (unbound when Pass 1 reaches line 2),
so the claim requires the provisional variant to have size 3, but Pass 1
records size 2 — `candidateVariants[0]` is the zero-page label variant,
which `createInstructionVariants` pushes before the absolute one. -/
theorem c1_counterexample :
    p1InstrSizes ".org $0200\nLDA data\ndata: .byte 7" = some [2] ∧
    some [2] ≠ some ([3] : List Nat) := by
  refine ⟨by decide, by decide⟩

/-- C1 amended: for every instruction whose bare-identifier operand (other
than the accumulator designator `A`/`a`) admits both a 2-byte and a 3-byte
candidate variant, the provisional variant chosen in Pass 1 (the head of
the candidate list) is always the zero-page label variant of size 2,
regardless of the symbol table — so forward references are provisionally
sized at 2 bytes, not 3. -/
theorem c1_amended (m : String) (s : Str) (hid : identL s = true)
    (hA : s ≠ ['A']) (ha : s ≠ ['a'])
    (h2 : ∃ v ∈ candidatesFor m s, v.size = 2)
    (h3 : ∃ v ∈ candidatesFor m s, v.size = 3) :
    ∃ v, (candidatesFor m s).head? = some v ∧ v.size = 2 ∧ v.pat = Pat.label ∧
      v.resolver = Rk.zeroPage := by
  have hcands : candidatesFor m s = instructionSet.filter
      (fun v => v.mnemonic == m && (v.pat == Pat.label || v.pat == Pat.rel)) := by
    unfold candidatesFor
    apply List.filter_congr
    intro v _
    rw [patTest_ident s hid hA ha v.pat]
  obtain ⟨v3, hv3mem, hv3sz⟩ := h3
  have hv3 := hv3mem
  rw [hcands] at hv3
  have hv3' := List.mem_filter.mp hv3
  have hmn : v3.mnemonic = m := by
    have h := hv3'.2
    simp only [Bool.and_eq_true, beq_iff_eq] at h
    exact h.1
  have hchk := List.all_eq_true.mp c1check_all v3 hv3'.1
  rw [hmn] at hchk
  simp only [c1check] at hchk
  rw [← hcands] at hchk
  have ha2 : ((candidatesFor m s).any (fun v => v.size == 2)) = true := by
    rw [List.any_eq_true]
    obtain ⟨v2, hv2m, hv2s⟩ := h2
    exact ⟨v2, hv2m, by simp [hv2s]⟩
  have ha3 : ((candidatesFor m s).any (fun v => v.size == 3)) = true := by
    rw [List.any_eq_true]
    exact ⟨v3, hv3mem, by simp [hv3sz]⟩
  rw [ha2, ha3] at hchk
  simp only [Bool.not_true, Bool.false_or] at hchk
  cases hh : (candidatesFor m s).head? with
  | none => rw [hh] at hchk; simp at hchk
  | some v =>
    rw [hh] at hchk
    simp only [Bool.and_eq_true, beq_iff_eq] at hchk
    exact ⟨v, rfl, hchk.1.1, hchk.1.2, hchk.2⟩

/-- Witness for C1 amended: `LDA data` with an empty symbol table. -/
theorem c1_amended_witness :
    ∃ v, (candidatesFor "LDA" (String.toList "data")).head? = some v ∧ v.size = 2 ∧
      v.pat = Pat.label ∧ v.resolver = Rk.zeroPage :=
  c1_amended "LDA" (String.toList "data") (by decide) (by decide) (by decide)
    ⟨⟨"LDA", Pat.label, 0xA5, 2, Rk.zeroPage⟩, by decide, rfl⟩
    ⟨⟨"LDA", Pat.label, 0xAD, 3, Rk.absolute⟩, by decide, rfl⟩

/-! ### C5 -/

theorem identStart_not_digit (c : Char) (h : isIdentStartC c = true) :
    isDigitC c = false := by
  simp only [isIdentStartC, isAlphaC, Bool.or_eq_true, Bool.and_eq_true,
    decide_eq_true_eq, beq_iff_eq] at h
  simp only [isDigitC, Bool.and_eq_true, decide_eq_true_eq, Bool.and_eq_false_iff,
    decide_eq_false_iff_not, not_le]
  rcases h with (⟨a, b⟩ | ⟨a, b⟩) | a
  · omega
  · omega
  · subst a
    decide

theorem endsComma_appX (i : Str) :
    endsComma 'X' (i ++ [',', 'X']) = some i := by
  unfold endsComma
  rw [show (i ++ [',', 'X']).reverse = 'X' :: ',' :: i.reverse by simp]
  simp

theorem endsComma_appXY (i : Str) :
    endsComma 'Y' (i ++ [',', 'X']) = none := by
  unfold endsComma
  rw [show (i ++ [',', 'X']).reverse = 'X' :: ',' :: i.reverse by simp]
  simp

theorem endsComma_appY (i : Str) :
    endsComma 'Y' (i ++ [',', 'Y']) = some i := by
  unfold endsComma
  rw [show (i ++ [',', 'Y']).reverse = 'Y' :: ',' :: i.reverse by simp]
  simp

theorem endsComma_appYX (i : Str) :
    endsComma 'X' (i ++ [',', 'Y']) = none := by
  unfold endsComma
  rw [show (i ++ [',', 'Y']).reverse = 'Y' :: ',' :: i.reverse by simp]
  simp

/-- A bare identifier followed by `,X` matches exactly the absolute-indexed
regex (`R.ABSOLUTE_X`, which accepts `LABEL,X`) and the indexed label
regex; in particular the zero-page-indexed regex never matches it, because
`R.ZEROPAGE_X` accepts only `$`-hex or decimal address parts. -/
theorem patTest_identX (i : Str) (hid : identL i = true) (p : Pat) :
    patTest p (i ++ [',', 'X']) = (p == Pat.abx || p == Pat.labelX) := by
  obtain ⟨c, t, hi, hc, ht⟩ := identL_parts i hid
  have hs : i ++ [',', 'X'] = c :: (t ++ [',', 'X']) := by rw [hi]; simp
  have h1 : c ≠ '#' := fun he => absurd hc (by rw [he]; decide)
  have h2 : c ≠ '$' := fun he => absurd hc (by rw [he]; decide)
  have h3 : c ≠ '(' := fun he => absurd hc (by rw [he]; decide)
  have hlabF : identL (i ++ [',', 'X']) = false := by
    cases hls : identL (i ++ [',', 'X']) with
    | false => rfl
    | true =>
      exfalso
      exact identL_comma_not_mem _ hls (by simp)
  cases p with
  | acc =>
    have hne : i ≠ [] := by rw [hi]; simp
    simp only [patTest]
    have e1 : (i ++ [',', 'X']).isEmpty = false := by
      rw [hi]; simp
    have e2 : ((i ++ [',', 'X']) == ['A']) = false := by
      rw [beq_eq_false_iff_ne]
      intro he
      have := congrArg List.length he
      rw [hi] at this
      simp at this
    have e3 : ((i ++ [',', 'X']) == ['a']) = false := by
      rw [beq_eq_false_iff_ne]
      intro he
      have := congrArg List.length he
      rw [hi] at this
      simp at this
    rw [e1, e2, e3]
    rfl
  | imm => rw [hs, patTest_imm_false c _ h1]; rfl
  | zpx =>
    simp only [patTest, endsComma_appX i]
    have hdh : isDollarHex 1 2 i = false := by
      rw [hi]; exact isDollarHex_false 1 2 c t h2
    have hdr : isDecRun 1 3 i = false := by
      simp only [isDecRun]
      rw [hi]
      simp only [List.all_cons, identStart_not_digit c hc]
      simp
    rw [hdh, hdr]
    rfl
  | zpy => simp only [patTest, endsComma_appXY i]; rfl
  | abx =>
    simp only [patTest, endsComma_appX i, hid]
    simp
  | aby => simp only [patTest, endsComma_appXY i]; rfl
  | indx => rw [hs]; simp only [patTest, indXInner_none c _ h3]; rfl
  | indy => rw [hs]; simp only [patTest, indYInner_none c _ h3]; rfl
  | indAbs => rw [hs]; simp only [patTest, indInner_none c _ h3]; rfl
  | zp => rw [hs]; simp only [patTest, isDollarHex_false 1 2 c _ h2]; rfl
  | abs => rw [hs]; simp only [patTest, isDollarHex_false 3 4 c _ h2]; rfl
  | label => simp only [patTest, hlabF]; rfl
  | rel => simp only [patTest, hlabF]; rfl
  | impl => rw [hs]; simp only [patTest, List.isEmpty_cons]; rfl
  | labelX =>
    simp only [patTest, endsComma_appX i, hid]
    rfl
  | labelY => simp only [patTest, endsComma_appXY i]; rfl

/-- A bare identifier followed by `,Y` matches exactly the absolute-indexed
regex (`R.ABSOLUTE_Y`, which accepts `LABEL,Y`) and the indexed label
regex; in particular the zero-page-indexed regex never matches it, because
`R.ZEROPAGE_Y` accepts only `$`-hex or decimal address parts. -/
theorem patTest_identY (i : Str) (hid : identL i = true) (p : Pat) :
    patTest p (i ++ [',', 'Y']) = (p == Pat.aby || p == Pat.labelY) := by
  obtain ⟨c, t, hi, hc, ht⟩ := identL_parts i hid
  have hs : i ++ [',', 'Y'] = c :: (t ++ [',', 'Y']) := by rw [hi]; simp
  have h1 : c ≠ '#' := fun he => absurd hc (by rw [he]; decide)
  have h2 : c ≠ '$' := fun he => absurd hc (by rw [he]; decide)
  have h3 : c ≠ '(' := fun he => absurd hc (by rw [he]; decide)
  have hlabF : identL (i ++ [',', 'Y']) = false := by
    cases hls : identL (i ++ [',', 'Y']) with
    | false => rfl
    | true =>
      exfalso
      exact identL_comma_not_mem _ hls (by simp)
  cases p with
  | acc =>
    have hne : i ≠ [] := by rw [hi]; simp
    simp only [patTest]
    have e1 : (i ++ [',', 'Y']).isEmpty = false := by
      rw [hi]; simp
    have e2 : ((i ++ [',', 'Y']) == ['A']) = false := by
      rw [beq_eq_false_iff_ne]
      intro he
      have := congrArg List.length he
      rw [hi] at this
      simp at this
    have e3 : ((i ++ [',', 'Y']) == ['a']) = false := by
      rw [beq_eq_false_iff_ne]
      intro he
      have := congrArg List.length he
      rw [hi] at this
      simp at this
    rw [e1, e2, e3]
    rfl
  | imm => rw [hs, patTest_imm_false c _ h1]; rfl
  | zpx => simp only [patTest, endsComma_appYX i]; rfl
  | zpy =>
    simp only [patTest, endsComma_appY i]
    have hdh : isDollarHex 1 2 i = false := by
      rw [hi]; exact isDollarHex_false 1 2 c t h2
    have hdr : isDecRun 1 3 i = false := by
      simp only [isDecRun]
      rw [hi]
      simp only [List.all_cons, identStart_not_digit c hc]
      simp
    rw [hdh, hdr]
    rfl
  | abx => simp only [patTest, endsComma_appYX i]; rfl
  | aby =>
    simp only [patTest, endsComma_appY i, hid]
    simp
  | indx => rw [hs]; simp only [patTest, indXInner_none c _ h3]; rfl
  | indy => rw [hs]; simp only [patTest, indYInner_none c _ h3]; rfl
  | indAbs => rw [hs]; simp only [patTest, indInner_none c _ h3]; rfl
  | zp => rw [hs]; simp only [patTest, isDollarHex_false 1 2 c _ h2]; rfl
  | abs => rw [hs]; simp only [patTest, isDollarHex_false 3 4 c _ h2]; rfl
  | label => simp only [patTest, hlabF]; rfl
  | rel => simp only [patTest, hlabF]; rfl
  | impl => rw [hs]; simp only [patTest, List.isEmpty_cons]; rfl
  | labelX => simp only [patTest, endsComma_appYX i]; rfl
  | labelY =>
    simp only [patTest, endsComma_appY i, hid]
    rfl

/-- Decidable form of the C5 selection property over the instruction
table: among a mnemonic's variants matching `IDENT,X`, the first (if any)
is the 3-byte absolute-indexed one. -/
def c5check (mn : String) : Bool :=
  let c := instructionSet.filter
    (fun v => v.mnemonic == mn && (v.pat == Pat.abx || v.pat == Pat.labelX))
  c.isEmpty ||
    (match c.head? with
     | some v => v.size == 3 && v.pat == Pat.abx && v.resolver == Rk.absIdxX
     | none => false)

set_option maxRecDepth 100000 in
theorem c5check_all : instructionSet.all (fun w => c5check w.mnemonic) = true := by decide

/-- Decidable form of the C5 selection property over the instruction
table, `,Y` shape: among a mnemonic's variants matching `IDENT,Y`, the
first (if any) is the 3-byte absolute-indexed one. -/
def c5checkY (mn : String) : Bool :=
  let c := instructionSet.filter
    (fun v => v.mnemonic == mn && (v.pat == Pat.aby || v.pat == Pat.labelY))
  c.isEmpty ||
    (match c.head? with
     | some v => v.size == 3 && v.pat == Pat.aby && v.resolver == Rk.absIdxY
     | none => false)

set_option maxRecDepth 100000 in
theorem c5checkY_all : instructionSet.all (fun w => c5checkY w.mnemonic) = true := by decide

/-- C5 is false on the code, in both indexed shapes: `LDA zp,X` with `zp`
bound to `$10` (≤ 0xFF) does not encode as ZeroPage,X (2 bytes, `B5 10`)
but as the 3-byte Absolute,X form `BD 10 00`, and `LDX zp,Y` likewise does
not encode as ZeroPage,Y (`B6 10`) but as the 3-byte Absolute,Y form
`BE 10 00`. -/
theorem c5_counterexample :
    (assemble ".org $0010\nzp: .res 1\n.org $0200\nLDA zp,X" =
      ⟨[0xBD, 0x10, 0x00], none⟩ ∧
    (assemble ".org $0010\nzp: .res 1\n.org $0200\nLDA zp,X").machineCode ≠
      [0xB5, 0x10]) ∧
    (assemble ".org $0010\nzp: .res 1\n.org $0200\nLDX zp,Y" =
      ⟨[0xBE, 0x10, 0x00], none⟩ ∧
    (assemble ".org $0010\nzp: .res 1\n.org $0200\nLDX zp,Y").machineCode ≠
      [0xB6, 0x10]) := by
  refine ⟨⟨by decide, by decide⟩, ⟨by decide, by decide⟩⟩

/-- C5 amended: an `IDENT,X` (resp. `IDENT,Y`) operand always selects the
absolute-indexed variant (size 3) whenever any variant matches at all —
the zero-page indexed regexes do not accept identifiers, the Absolute,X /
Absolute,Y variants precede the indexed label variants, and Pass 2's
re-selection only applies to bare identifiers, so it keeps the Pass-1
choice; shown end to end on `LDA zp,X` and `LDX zp,Y` with `zp = $10`. -/
theorem c5_amended (m : String) (i : Str) (hid : identL i = true) :
    ((candidatesFor m (i ++ [',', 'X'])) ≠ [] →
      ∃ v, (candidatesFor m (i ++ [',', 'X'])).head? = some v ∧ v.size = 3 ∧
        v.pat = Pat.abx ∧ v.resolver = Rk.absIdxX) ∧
    ((candidatesFor m (i ++ [',', 'Y'])) ≠ [] →
      ∃ v, (candidatesFor m (i ++ [',', 'Y'])).head? = some v ∧ v.size = 3 ∧
        v.pat = Pat.aby ∧ v.resolver = Rk.absIdxY) ∧
    (∀ labels variant cands,
      finalVariantFor labels (i ++ [',', 'X']) variant cands = variant) ∧
    (∀ labels variant cands,
      finalVariantFor labels (i ++ [',', 'Y']) variant cands = variant) ∧
    assemble ".org $0010\nzp: .res 1\n.org $0200\nLDA zp,X" =
      ⟨[0xBD, 0x10, 0x00], none⟩ ∧
    assemble ".org $0010\nzp: .res 1\n.org $0200\nLDX zp,Y" =
      ⟨[0xBE, 0x10, 0x00], none⟩ := by
  have hlabFX : identL (i ++ [',', 'X']) = false := by
    cases hls : identL (i ++ [',', 'X']) with
    | false => rfl
    | true =>
      exfalso
      exact identL_comma_not_mem _ hls (by simp)
  have hlabFY : identL (i ++ [',', 'Y']) = false := by
    cases hls : identL (i ++ [',', 'Y']) with
    | false => rfl
    | true =>
      exfalso
      exact identL_comma_not_mem _ hls (by simp)
  have hcandsX : candidatesFor m (i ++ [',', 'X']) = instructionSet.filter
      (fun v => v.mnemonic == m && (v.pat == Pat.abx || v.pat == Pat.labelX)) := by
    unfold candidatesFor
    apply List.filter_congr
    intro v _
    rw [patTest_identX i hid v.pat]
  have hcandsY : candidatesFor m (i ++ [',', 'Y']) = instructionSet.filter
      (fun v => v.mnemonic == m && (v.pat == Pat.aby || v.pat == Pat.labelY)) := by
    unfold candidatesFor
    apply List.filter_congr
    intro v _
    rw [patTest_identY i hid v.pat]
  refine ⟨?_, ?_, ?_, ?_, by decide, by decide⟩
  · intro hne
    obtain ⟨v0, hv0⟩ := List.exists_mem_of_ne_nil _ hne
    have hv0' := hv0
    rw [hcandsX] at hv0'
    have hv0'' := List.mem_filter.mp hv0'
    have hmn : v0.mnemonic = m := by
      have h := hv0''.2
      simp only [Bool.and_eq_true, beq_iff_eq] at h
      exact h.1
    have hchk := List.all_eq_true.mp c5check_all v0 hv0''.1
    rw [hmn] at hchk
    simp only [c5check] at hchk
    rw [← hcandsX] at hchk
    have hie : (candidatesFor m (i ++ [',', 'X'])).isEmpty = false := by
      rw [List.isEmpty_eq_false_iff_exists_mem]
      exact ⟨v0, hv0⟩
    rw [hie] at hchk
    simp only [Bool.false_or] at hchk
    cases hh : (candidatesFor m (i ++ [',', 'X'])).head? with
    | none => rw [hh] at hchk; simp at hchk
    | some v =>
      rw [hh] at hchk
      simp only [Bool.and_eq_true, beq_iff_eq] at hchk
      exact ⟨v, rfl, hchk.1.1, hchk.1.2, hchk.2⟩
  · intro hne
    obtain ⟨v0, hv0⟩ := List.exists_mem_of_ne_nil _ hne
    have hv0' := hv0
    rw [hcandsY] at hv0'
    have hv0'' := List.mem_filter.mp hv0'
    have hmn : v0.mnemonic = m := by
      have h := hv0''.2
      simp only [Bool.and_eq_true, beq_iff_eq] at h
      exact h.1
    have hchk := List.all_eq_true.mp c5checkY_all v0 hv0''.1
    rw [hmn] at hchk
    simp only [c5checkY] at hchk
    rw [← hcandsY] at hchk
    have hie : (candidatesFor m (i ++ [',', 'Y'])).isEmpty = false := by
      rw [List.isEmpty_eq_false_iff_exists_mem]
      exact ⟨v0, hv0⟩
    rw [hie] at hchk
    simp only [Bool.false_or] at hchk
    cases hh : (candidatesFor m (i ++ [',', 'Y'])).head? with
    | none => rw [hh] at hchk; simp at hchk
    | some v =>
      rw [hh] at hchk
      simp only [Bool.and_eq_true, beq_iff_eq] at hchk
      exact ⟨v, rfl, hchk.1.1, hchk.1.2, hchk.2⟩
  · intro labels variant cands
    unfold finalVariantFor
    rw [hlabFX]
    simp
  · intro labels variant cands
    unfold finalVariantFor
    rw [hlabFY]
    simp

/-- Witness for C5 amended at `LDA zp,X` and `LDX zp,Y`. -/
theorem c5_amended_witness :
    ((candidatesFor "LDA" (String.toList "zp" ++ [',', 'X'])) ≠ [] →
      ∃ v, (candidatesFor "LDA" (String.toList "zp" ++ [',', 'X'])).head? = some v ∧
        v.size = 3 ∧ v.pat = Pat.abx ∧ v.resolver = Rk.absIdxX) ∧
    ((candidatesFor "LDA" (String.toList "zp" ++ [',', 'Y'])) ≠ [] →
      ∃ v, (candidatesFor "LDA" (String.toList "zp" ++ [',', 'Y'])).head? = some v ∧
        v.size = 3 ∧ v.pat = Pat.aby ∧ v.resolver = Rk.absIdxY) ∧
    (∀ labels variant cands,
      finalVariantFor labels (String.toList "zp" ++ [',', 'X']) variant cands = variant) ∧
    (∀ labels variant cands,
      finalVariantFor labels (String.toList "zp" ++ [',', 'Y']) variant cands = variant) ∧
    assemble ".org $0010\nzp: .res 1\n.org $0200\nLDA zp,X" =
      ⟨[0xBD, 0x10, 0x00], none⟩ ∧
    assemble ".org $0010\nzp: .res 1\n.org $0200\nLDX zp,Y" =
      ⟨[0xBE, 0x10, 0x00], none⟩ :=
  c5_amended "LDA" (String.toList "zp") (by decide)

/-! ### C3: relative-branch law -/

/-- C3: for a branch at address A targeting a label bound to T, when T lies
in [A-126, A+129] (equivalently the signed offset T-(A+2) lies in
[-128, 127]) the resolver emits the single two's-complement offset byte B
with `T = A + 2 + (B if B < 128 else B - 256)`; outside that range it
fails with the message naming the label and the signed offset.  The last
two conjuncts run this end to end: a backward branch encodes `D0 FB`-style
bytes, and an out-of-range branch aborts assembly with the range error. -/
theorem c3_relative_branch :
    (∀ (L : LabelMap) (op : Str) (A T : Nat),
      lmGet L (String.mk op) = some T →
      ((A + 2 ≤ T + 128 ∧ T ≤ A + 129) →
        ∃ b : Int, resolveOperand Rk.relLabel op L A = .ok [b] ∧ 0 ≤ b ∧ b < 256 ∧
          (T : Int) = (A : Int) + 2 + (if b < 128 then b else b - 256)) ∧
      ((T + 128 < A + 2 ∨ A + 129 < T) →
        resolveOperand Rk.relLabel op L A = .error
          ("Relative branch target out of range for label " ++ String.mk op ++
            " (offset " ++ toString ((T : Int) - ((A : Int) + 2)) ++ ")"))) ∧
    assemble ".org $0200\nl: BRK\nBNE l" = ⟨[0x00, 0xD0, 0xFD], none⟩ ∧
    assemble ".org $0200\nBNE far\n.res 200\nfar: BRK" =
      ⟨[], some "Line 2: Error resolving operand 'far' for BNE: Relative branch target out of range for label far (offset 200). Original: 'BNE far'"⟩ := by
  refine ⟨?_, by decide, by decide⟩
  intro L op A T hlook
  constructor
  · intro hin
    simp only [resolveOperand, resolveRelativeLabel, hlook]
    have hcond : (decide ((T : Int) - ((A : Int) + 2) < -128) ||
        decide ((T : Int) - ((A : Int) + 2) > 127)) = false := by
      simp only [Bool.or_eq_false_iff, decide_eq_false_iff_not, not_lt, gt_iff_lt]
      omega
    rw [hcond]
    simp only [Bool.false_eq_true, if_false]
    refine ⟨jsAnd255 ((T : Int) - ((A : Int) + 2)), rfl, jsAnd255_nonneg _, ?_, ?_⟩
    · have := jsAnd255_le ((T : Int) - ((A : Int) + 2))
      omega
    · have ht32 : toInt32 ((T : Int) - ((A : Int) + 2)) = (T : Int) - ((A : Int) + 2) := by
        apply toInt32_of_small <;> omega
      unfold jsAnd255
      rw [ht32]
      split <;> omega
  · intro hout
    simp only [resolveOperand, resolveRelativeLabel, hlook]
    have hcond : (decide ((T : Int) - ((A : Int) + 2) < -128) ||
        decide ((T : Int) - ((A : Int) + 2) > 127)) = true := by
      simp only [Bool.or_eq_true, decide_eq_true_eq, gt_iff_lt]
      omega
    rw [hcond]
    simp

/-- Witness for C3: `BNE` at address 0 to a label bound at 5 (offset 3). -/
theorem c3_relative_branch_witness :
    ∃ b : Int, resolveOperand Rk.relLabel (String.toList "l") [("l", 5)] 0 = .ok [b] ∧
      0 ≤ b ∧ b < 256 ∧
      ((5 : Nat) : Int) = ((0 : Nat) : Int) + 2 + (if b < 128 then b else b - 256) :=
  (c3_relative_branch.1 [("l", 5)] (String.toList "l") 0 5 (by decide)).1 (by omega)

/-! ### C4: little-endian `.word` / `.dword` emission -/

theorem jsw0 (v : Int) (h0 : 0 ≤ v) (h1 : v ≤ 4294967295) : jsAnd255 v = v % 256 := by
  simp only [jsAnd255, toInt32]
  split_ifs <;> omega

theorem jsw8 (v : Int) (h0 : 0 ≤ v) (h1 : v ≤ 4294967295) :
    jsAnd255 (jsShr v 8) = v / 256 % 256 := by
  simp only [jsAnd255, jsShr, toInt32]
  norm_num
  split_ifs <;> omega

theorem jsw16 (v : Int) (h0 : 0 ≤ v) (h1 : v ≤ 4294967295) :
    jsAnd255 (jsShr v 16) = v / 65536 % 256 := by
  simp only [jsAnd255, jsShr, toInt32]
  norm_num
  split_ifs <;> omega

theorem jsw24 (v : Int) (h0 : 0 ≤ v) (h1 : v ≤ 4294967295) :
    jsAnd255 (jsShr v 24) = v / 16777216 % 256 := by
  simp only [jsAnd255, jsShr, toInt32]
  norm_num
  split_ifs <;> omega

theorem emitWords_ok (L : LabelMap) (ln : Nat) (orig : String) :
    ∀ (strs : List String) (vs : List Int),
      strs.mapM (fun s => parseValue s.toList L ".word value") = .ok vs →
      (∀ v ∈ vs, 0 ≤ v ∧ v ≤ 65535) →
      emitWords L ln orig strs = .ok (vs.bind (fun v => [v % 256, v / 256 % 256])) := by
  intro strs
  induction strs with
  | nil =>
    intro vs h _
    simp only [List.mapM_nil, pure, Except.pure] at h
    cases h
    rfl
  | cons s rest ih =>
    intro vs h hb
    rw [List.mapM_cons] at h
    simp only [bind, Except.bind, pure, Except.pure] at h
    cases hs : parseValue s.toList L ".word value" with
    | error e => rw [hs] at h; cases h
    | ok v =>
      rw [hs] at h
      cases hrest : rest.mapM (fun s => parseValue s.toList L ".word value") with
      | error e => rw [hrest] at h; cases h
      | ok vs' =>
        rw [hrest] at h
        cases h
        have hv : 0 ≤ v ∧ v ≤ 65535 := hb v (by simp)
        have hb' : ∀ w ∈ vs', 0 ≤ w ∧ w ≤ 65535 := fun w hw => hb w (by simp [hw])
        have hcond : (decide (v < 0) || decide (v > 65535)) = false := by
          simp only [Bool.or_eq_false_iff, decide_eq_false_iff_not, not_lt, gt_iff_lt]
          omega
        simp only [emitWords, hs, hcond, Bool.false_eq_true, if_false]
        rw [ih vs' hrest hb']
        simp only [List.cons_bind]
        rw [jsw0 v hv.1 (by omega), jsw8 v hv.1 (by omega)]

theorem emitDwords_ok (L : LabelMap) (ln : Nat) (orig : String) :
    ∀ (strs : List String) (vs : List Int),
      strs.mapM (fun s => parseValue s.toList L ".dword value") = .ok vs →
      (∀ v ∈ vs, 0 ≤ v ∧ v ≤ 4294967295) →
      emitDwords L ln orig strs = .ok (vs.bind (fun v =>
        [v % 256, v / 256 % 256, v / 65536 % 256, v / 16777216 % 256])) := by
  intro strs
  induction strs with
  | nil =>
    intro vs h _
    simp only [List.mapM_nil, pure, Except.pure] at h
    cases h
    rfl
  | cons s rest ih =>
    intro vs h hb
    rw [List.mapM_cons] at h
    simp only [bind, Except.bind, pure, Except.pure] at h
    cases hs : parseValue s.toList L ".dword value" with
    | error e => rw [hs] at h; cases h
    | ok v =>
      rw [hs] at h
      cases hrest : rest.mapM (fun s => parseValue s.toList L ".dword value") with
      | error e => rw [hrest] at h; cases h
      | ok vs' =>
        rw [hrest] at h
        cases h
        have hv : 0 ≤ v ∧ v ≤ 4294967295 := hb v (by simp)
        have hb' : ∀ w ∈ vs', 0 ≤ w ∧ w ≤ 4294967295 := fun w hw => hb w (by simp [hw])
        have hcond : (decide (v < 0) || decide (v > 4294967295)) = false := by
          simp only [Bool.or_eq_false_iff, decide_eq_false_iff_not, not_lt, gt_iff_lt]
          omega
        simp only [emitDwords, hs, hcond, Bool.false_eq_true, if_false]
        rw [ih vs' hrest hb']
        simp only [List.cons_bind]
        rw [jsw0 v hv.1 hv.2, jsw8 v hv.1 hv.2, jsw16 v hv.1 hv.2, jsw24 v hv.1 hv.2]

/-- C4: every `.word` element resolving to V in 0..0xFFFF emits exactly
the bytes `(V % 256, V / 256 % 256)` — i.e. `V & 0xFF` then
`(V >> 8) & 0xFF` — in that order, and the pair reconstructs V; every
`.dword` element resolving to V in 0..0xFFFFFFFF emits the four 8-bit
bytes of V least-significant first, reconstructing V; an element outside
its range aborts with the error naming the offending element and the
range.  The final conjunct checks scenario `.word $1234, $5678` end to
end. -/
theorem c4_little_endian :
    (∀ (L : LabelMap) (ln : Nat) (orig : String) (strs : List String) (vs : List Int),
      strs.mapM (fun s => parseValue s.toList L ".word value") = .ok vs →
      (∀ v ∈ vs, 0 ≤ v ∧ v ≤ 65535) →
      emitWords L ln orig strs = .ok (vs.bind (fun v => [v % 256, v / 256 % 256])) ∧
      ∀ v ∈ vs, v % 256 + 256 * (v / 256 % 256) = v) ∧
    (∀ (L : LabelMap) (ln : Nat) (orig : String) (strs : List String) (vs : List Int),
      strs.mapM (fun s => parseValue s.toList L ".dword value") = .ok vs →
      (∀ v ∈ vs, 0 ≤ v ∧ v ≤ 4294967295) →
      emitDwords L ln orig strs = .ok (vs.bind (fun v =>
        [v % 256, v / 256 % 256, v / 65536 % 256, v / 16777216 % 256])) ∧
      ∀ v ∈ vs, v % 256 + 256 * (v / 256 % 256) + 65536 * (v / 65536 % 256) +
        16777216 * (v / 16777216 % 256) = v) ∧
    (∀ (L : LabelMap) (ln : Nat) (orig : String) (s : String) (rest : List String) (v : Int),
      parseValue s.toList L ".word value" = .ok v → (v < 0 ∨ v > 65535) →
      emitWords L ln orig (s :: rest) =
        .error (fmt2 ln (".word value '" ++ s ++ "' out of range (0-65535)") orig)) ∧
    (∀ (L : LabelMap) (ln : Nat) (orig : String) (s : String) (rest : List String) (v : Int),
      parseValue s.toList L ".dword value" = .ok v → (v < 0 ∨ v > 4294967295) →
      emitDwords L ln orig (s :: rest) =
        .error (fmt2 ln (".dword value '" ++ s ++ "' out of range (0-4294967295)") orig)) ∧
    assemble ".org $0200\ndata: .word $1234, $5678" = ⟨[0x34, 0x12, 0x78, 0x56], none⟩ := by
  refine ⟨?_, ?_, ?_, ?_, by decide⟩
  · intro L ln orig strs vs h hb
    refine ⟨emitWords_ok L ln orig strs vs h hb, ?_⟩
    intro v hv
    have := hb v hv
    omega
  · intro L ln orig strs vs h hb
    refine ⟨emitDwords_ok L ln orig strs vs h hb, ?_⟩
    intro v hv
    have := hb v hv
    omega
  · intro L ln orig s rest v hs hout
    have hcond : (decide (v < 0) || decide (v > 65535)) = true := by
      simp only [Bool.or_eq_true, decide_eq_true_eq, gt_iff_lt]
      omega
    simp only [emitWords, hs, hcond, if_true]
  · intro L ln orig s rest v hs hout
    have hcond : (decide (v < 0) || decide (v > 4294967295)) = true := by
      simp only [Bool.or_eq_true, decide_eq_true_eq, gt_iff_lt]
      omega
    simp only [emitDwords, hs, hcond, if_true]

/-- Witness for C4 on `.word ["$1234"]` and `.dword ["$FFFFFFFF"]` with an
empty symbol table, plus the error branches at value 70000 and
5000000000. -/
theorem c4_little_endian_witness :
    emitWords [] 1 "o" ["$1234"] = .ok [0x34, 0x12] ∧
    emitDwords [] 1 "o" ["$FFFFFFFF"] = .ok [255, 255, 255, 255] ∧
    emitWords [] 1 "o" ["70000"] =
      .error (fmt2 1 (".word value '" ++ "70000" ++ "' out of range (0-65535)") "o") ∧
    emitDwords [] 1 "o" ["5000000000"] =
      .error (fmt2 1 (".dword value '" ++ "5000000000" ++ "' out of range (0-4294967295)") "o") := by
  refine ⟨?_, ?_, ?_, ?_⟩
  · have h := (c4_little_endian.1 [] 1 "o" ["$1234"] [0x1234] (by decide)
      (by intro v hv; simp at hv; omega)).1
    rw [h]
    rfl
  · have h := (c4_little_endian.2.1 [] 1 "o" ["$FFFFFFFF"] [0xFFFFFFFF] (by decide)
      (by intro v hv; simp at hv; omega)).1
    rw [h]
    rfl
  · exact c4_little_endian.2.2.1 [] 1 "o" "70000" [] 70000 (by decide) (by omega)
  · exact c4_little_endian.2.2.2.1 [] 1 "o" "5000000000" [] 5000000000 (by decide)
      (by omega)

/-! ### C9: forward references in `.word`/`.dword` versus `.byte` -/

/-- C9: a label used in `.word`/`.dword` may be defined later — its value
strings are kept verbatim in Pass 1 and resolved in Pass 2 against the
completed symbol table (second and third conjuncts: the forward reference
`target` resolves to its bound address, little-endian) — whereas a `.byte`
element naming an identifier not yet bound when Pass 1 reaches the line
fails immediately with the label-not-found error (first conjunct, for any
Pass-1 state whose table lacks `foo`; last conjunct end to end). -/
theorem c9_forward_references :
    (∀ (st : P1) (n : Nat), lmGet st.labels "foo" = none →
      pass1Line st n (String.toList ".byte foo") =
        .error (fmt1 n "Label 'foo' not found for .byte value" ".byte foo")) ∧
    assemble ".word target\ntarget: BRK" = ⟨[2, 0, 0], none⟩ ∧
    assemble ".dword target\ntarget: BRK" = ⟨[4, 0, 0, 0, 0], none⟩ ∧
    assemble ".byte later\nlater: BRK" =
      ⟨[], some "Line 1: Label 'later' not found for .byte value. Original line: '.byte later'"⟩ := by
  refine ⟨?_, by decide, by decide, by decide⟩
  intro st n h
  simp [pass1Line, p1Content, orgvFor, dirRest, byteValues, parseValue, trimL, matchLabel,
    orgFull, orgStar, orgSearch, orgTailAt, stripPrefixCI, splitOnComma, splitOnChar,
    startsWithC, isWsC, isIdentStartC, isIdentC, isAlphaC, isDigitC, identL, lmHas, h,
    String.mk, fmt1, String.append_assoc]

/-- Witness for C9 with the empty initial state. -/
theorem c9_forward_references_witness :
    pass1Line {} 1 (String.toList ".byte foo") =
      .error (fmt1 1 "Label 'foo' not found for .byte value" ".byte foo") :=
  c9_forward_references.1 {} 1 (by decide)

/-! ### C6: diagnostic format -/

theorem strToList_append (a b : String) : (a ++ b).toList = a.toList ++ b.toList := rfl

/-- C6 is false as stated: a failure detected in Pass 2 (here an unknown
label in `.word`) produces `Line 1: …. Original: '.word nope'` — the
claimed uniform format `Line N: <message>. Original line: '<text>'` does
not match it for any message, because a `fmt1`-shaped string ends with
`. Original line: '.word nope'` and this error does not. -/
theorem c6_counterexample :
    assemble ".word nope" =
      ⟨[], some "Line 1: Label 'nope' not found for .word value. Original: '.word nope'"⟩ ∧
    ¬ ∃ msg, "Line 1: Label 'nope' not found for .word value. Original: '.word nope'" =
      fmt1 1 msg ".word nope" := by
  constructor
  · decide
  · rintro ⟨msg, h⟩
    have hsfx : (String.toList (". Original line: '" ++ (".word nope" ++ "'"))) <:+
        (String.toList
          "Line 1: Label 'nope' not found for .word value. Original: '.word nope'") := by
      refine ⟨("Line " ++ toString 1 ++ ": " ++ msg).toList, ?_⟩
      rw [← strToList_append]
      rw [h]
      congr 1
      simp [fmt1, String.append_assoc]
    exact absurd hsfx (by decide)

/-- The `lineNumber` field of a parsed-line record. -/
def plLn : ParsedLine → Nat
  | .comment ln _ _ => ln
  | .labelDef ln _ _ _ => ln
  | .org ln _ _ _ => ln
  | .res ln _ _ _ _ => ln
  | .byteDir ln _ _ _ _ => ln
  | .wordDir ln _ _ _ _ => ln
  | .dwordDir ln _ _ _ _ => ln
  | .asciiDir ln _ _ _ _ => ln
  | .asciizDir ln _ _ _ _ => ln
  | .instr ln _ _ _ _ _ _ => ln

/-- The `originalLine` field of a parsed-line record. -/
def plOrig : ParsedLine → String
  | .comment _ o _ => o
  | .labelDef _ o _ _ => o
  | .org _ o _ _ => o
  | .res _ o _ _ _ => o
  | .byteDir _ o _ _ _ => o
  | .wordDir _ o _ _ _ => o
  | .dwordDir _ o _ _ _ => o
  | .asciiDir _ o _ _ _ => o
  | .asciizDir _ o _ _ _ => o
  | .instr _ o _ _ _ _ _ => o

theorem p1Content_err (st : P1) (ln : Nat) (orig : String) (lbl : Option String)
    (content : Str) (e : String) (h : p1Content st ln orig lbl content = .error e) :
    ∃ msg, e = fmt1 ln msg orig := by
  unfold p1Content at h
  repeat' split at h
  all_goals cases h
  all_goals exact ⟨_, rfl⟩

theorem memAppendSingle {p r : ParsedLine} {ps : List ParsedLine}
    (hp : p ∈ ps ++ [r]) : p ∈ ps ∨ p = r := by
  rcases List.mem_append.mp hp with h1 | h1
  · exact Or.inl h1
  · exact Or.inr (List.mem_singleton.mp h1)

theorem p1Content_plines (st : P1) (ln : Nat) (orig : String) (lbl : Option String)
    (content : Str) (st' : P1) (h : p1Content st ln orig lbl content = .ok st') :
    ∀ p ∈ st'.plines, p ∈ st.plines ∨ (plLn p = ln ∧ plOrig p = orig) := by
  unfold p1Content at h
  repeat' split at h
  all_goals cases h
  all_goals
    exact fun p hp => (memAppendSingle hp).elim Or.inl
      (fun h1 => by subst h1; exact Or.inr ⟨rfl, rfl⟩)

theorem pass1Line_err (st : P1) (n : Nat) (l : Str) (e : String)
    (h : pass1Line st n l = .error e) : ∃ msg, e = fmt1 n msg (String.mk l) := by
  simp only [pass1Line] at h
  repeat' split at h
  all_goals
    first
    | exact p1Content_err _ _ _ _ _ _ h
    | (cases h; exact ⟨_, rfl⟩)
    | cases h

theorem pass1Line_plines (st : P1) (n : Nat) (l : Str) (st' : P1)
    (h : pass1Line st n l = .ok st') :
    ∀ p ∈ st'.plines, p ∈ st.plines ∨ (plLn p = n ∧ plOrig p = String.mk l) := by
  simp only [pass1Line] at h
  repeat' split at h
  all_goals
    first
    | exact fun p hp => ((p1Content_plines _ _ _ _ _ _ h p hp).elim
        (fun h1 => (memAppendSingle h1).elim Or.inl
          (fun h2 => Or.inr (by subst h2; exact ⟨rfl, rfl⟩)))
        Or.inr)
    | exact fun p hp => p1Content_plines _ _ _ _ _ _ h p hp
    | (cases h
       exact fun p hp => (memAppendSingle hp).elim Or.inl
         (fun h1 => by subst h1; exact Or.inr ⟨rfl, rfl⟩))
    | cases h

theorem p1Go_err : ∀ (ls : List Str) (st : P1) (i : Nat) (e : String),
    p1Go st i ls = .error e →
    ∃ k, k < ls.length ∧ ∃ msg, e = fmt1 (i + k + 1) msg (String.mk (ls.getD k [])) := by
  intro ls
  induction ls with
  | nil => intro st i e h; simp [p1Go] at h
  | cons l rest ih =>
    intro st i e h
    unfold p1Go at h
    cases hp : pass1Line st (i + 1) l with
    | error e' =>
      rw [hp] at h
      cases h
      obtain ⟨msg, hm⟩ := pass1Line_err _ _ _ _ hp
      refine ⟨0, by simp, msg, ?_⟩
      simpa using hm
    | ok st1 =>
      rw [hp] at h
      obtain ⟨k, hk, msg, hm⟩ := ih st1 (i + 1) e h
      refine ⟨k + 1, by simpa using hk, msg, ?_⟩
      rw [show i + (k + 1) + 1 = i + 1 + k + 1 by omega]
      simpa using hm

theorem p1Go_plines : ∀ (ls : List Str) (st : P1) (i : Nat) (st' : P1),
    p1Go st i ls = .ok st' →
    ∀ p ∈ st'.plines, p ∈ st.plines ∨ ∃ k, k < ls.length ∧ plLn p = i + k + 1 ∧
      plOrig p = String.mk (ls.getD k []) := by
  intro ls
  induction ls with
  | nil =>
    intro st i st' h
    simp [p1Go] at h
    subst h
    exact fun p hp => Or.inl hp
  | cons l rest ih =>
    intro st i st' h
    unfold p1Go at h
    cases hp : pass1Line st (i + 1) l with
    | error e' => rw [hp] at h; cases h
    | ok st1 =>
      rw [hp] at h
      intro p hp'
      rcases ih st1 (i + 1) st' h p hp' with h1 | ⟨k, hk, h2, h3⟩
      · rcases pass1Line_plines _ _ _ _ hp p h1 with h2 | ⟨h2, h3⟩
        · exact Or.inl h2
        · exact Or.inr ⟨0, by simp, by simpa using h2, by simpa using h3⟩
      · refine Or.inr ⟨k + 1, by simpa using hk, ?_, by simpa using h3⟩
        rw [show i + (k + 1) + 1 = i + 1 + k + 1 by omega]
        exact h2

theorem emitWords_err (L : LabelMap) (ln : Nat) (orig : String) :
    ∀ (strs : List String) (e : String), emitWords L ln orig strs = .error e →
      ∃ msg, e = fmt2 ln msg orig := by
  intro strs
  induction strs with
  | nil => intro e h; cases h
  | cons s rest ih =>
    intro e h
    unfold emitWords at h
    repeat' split at h
    all_goals cases h
    · exact ⟨_, rfl⟩
    · exact ⟨_, rfl⟩
    · exact ih _ (by assumption)

theorem emitDwords_err (L : LabelMap) (ln : Nat) (orig : String) :
    ∀ (strs : List String) (e : String), emitDwords L ln orig strs = .error e →
      ∃ msg, e = fmt2 ln msg orig := by
  intro strs
  induction strs with
  | nil => intro e h; cases h
  | cons s rest ih =>
    intro e h
    unfold emitDwords at h
    repeat' split at h
    all_goals cases h
    · exact ⟨_, rfl⟩
    · exact ⟨_, rfl⟩
    · exact ih _ (by assumption)

theorem emitLine_err (L : LabelMap) (p : ParsedLine) (e : String)
    (h : emitLine L p = .error e) : ∃ msg, e = fmt2 (plLn p) msg (plOrig p) := by
  cases p with
  | wordDir ln orig a lb strs => exact emitWords_err L ln orig strs e h
  | dwordDir ln orig a lb strs => exact emitDwords_err L ln orig strs e h
  | instr ln orig a mn operand variant cands =>
    simp only [emitLine] at h
    repeat' split at h
    all_goals cases h
    · exact ⟨_, rfl⟩
    · exact ⟨_, rfl⟩
  | comment ln orig a => cases h
  | labelDef ln orig a lb => cases h
  | org ln orig a v => cases h
  | res ln orig a lb sz => cases h
  | byteDir ln orig a lb vs => cases h
  | asciiDir ln orig a lb vs => cases h
  | asciizDir ln orig a lb vs => cases h

theorem pass2_err (L : LabelMap) :
    ∀ (ps : List ParsedLine) (e : String), pass2 L ps = .error e →
      ∃ p ∈ ps, emitLine L p = .error e := by
  intro ps
  induction ps with
  | nil => intro e h; cases h
  | cons p rest ih =>
    intro e h
    unfold pass2 at h
    cases hp : emitLine L p with
    | error e' =>
      rw [hp] at h
      cases h
      exact ⟨p, by simp, hp⟩
    | ok bs =>
      rw [hp] at h
      cases hr : pass2 L rest with
      | error e' =>
        rw [hr] at h
        cases h
        obtain ⟨q, hq, he⟩ := ih _ hr
        exact ⟨q, by simp [hq], he⟩
      | ok more => rw [hr] at h; cases h

/-- C6 amended: every failure carries exactly one error string, of the form
`Line N: <message>. Original line: '<text>'` when detected in Pass 1 and
`Line N: <message>. Original: '<text>'` when detected in Pass 2 (operand
resolution, size check, `.word`/`.dword` range errors), where N is the
1-based number of the offending source line and <text> is that line's
original text. -/
theorem c6_amended (code : String) (e : String)
    (h : (assemble code).error = some e) :
    ∃ n msg, 1 ≤ n ∧ n ≤ (splitOnChar '\n' code.toList).length ∧
      (e = fmt1 n msg (String.mk ((splitOnChar '\n' code.toList).getD (n - 1) [])) ∨
       e = fmt2 n msg (String.mk ((splitOnChar '\n' code.toList).getD (n - 1) []))) := by
  unfold assemble at h
  split at h
  · rename_i e' hp
    simp only [Option.some.injEq] at h
    subst h
    unfold pass1 at hp
    obtain ⟨k, hk, msg, hm⟩ := p1Go_err _ _ _ _ hp
    exact ⟨k + 1, msg, by omega, by omega, Or.inl (by simpa using hm)⟩
  · rename_i st hp
    split at h
    · rename_i e' hp2
      simp only [Option.some.injEq] at h
      subst h
      obtain ⟨p, hpm, he⟩ := pass2_err _ _ _ hp2
      unfold pass1 at hp
      rcases p1Go_plines _ _ _ _ hp p hpm with h1 | ⟨k, hk, hln, horig⟩
      · simp at h1
      · obtain ⟨msg, hm⟩ := emitLine_err _ _ _ he
        refine ⟨k + 1, msg, by omega, by omega, Or.inr ?_⟩
        rw [hm, hln, horig]
        simp
    · simp at h

/-- Witness for C6 amended at a concrete Pass-2 failure. -/
theorem c6_amended_witness :
    ∃ n msg, 1 ≤ n ∧ n ≤ (splitOnChar '\n' (String.toList ".word nope")).length ∧
      (("Line 1: Label 'nope' not found for .word value. Original: '.word nope'" : String) =
          fmt1 n msg
            (String.mk ((splitOnChar '\n' (String.toList ".word nope")).getD (n - 1) [])) ∨
       ("Line 1: Label 'nope' not found for .word value. Original: '.word nope'" : String) =
          fmt2 n msg
            (String.mk ((splitOnChar '\n' (String.toList ".word nope")).getD (n - 1) []))) :=
  c6_amended ".word nope"
    "Line 1: Label 'nope' not found for .word value. Original: '.word nope'" (by decide)

/-! ### C8: byte-range safety of the output -/

theorem mem_dropWhileP {p : Char → Bool} {l : Str} {x : Char}
    (h : x ∈ l.dropWhile p) : x ∈ l :=
  (List.dropWhile_sublist p).subset h

theorem mem_takeWhileP {p : Char → Bool} {l : Str} {x : Char}
    (h : x ∈ l.takeWhile p) : x ∈ l :=
  (List.takeWhile_sublist p).subset h

theorem mem_trimL {l : Str} {x : Char} (h : x ∈ trimL l) : x ∈ l := by
  unfold trimL at h
  rw [List.mem_reverse] at h
  have h2 := mem_dropWhileP h
  rw [List.mem_reverse] at h2
  exact mem_dropWhileP h2

theorem mem_stripPrefixCI : ∀ (n l r : Str), stripPrefixCI n l = some r → ∀ x ∈ r, x ∈ l := by
  intro n
  induction n with
  | nil =>
    intro l r h x hx
    simp only [stripPrefixCI, Option.some.injEq] at h
    subst h
    exact hx
  | cons c nt ih =>
    intro l r h x hx
    cases l with
    | nil => cases h
    | cons y t =>
      simp only [stripPrefixCI] at h
      split at h
      · exact List.mem_cons_of_mem y (ih t r h x hx)
      · cases h

theorem mem_dirRest {name : String} {l c0 : Str} (h : dirRest name l = some c0) :
    ∀ x ∈ c0, x ∈ l := by
  unfold dirRest at h
  split at h
  · rename_i r heq
    split at h
    · split at h
      · simp only [] at h
        split at h
        · cases h
        · simp only [Option.some.injEq] at h
          subst h
          exact fun x hx => mem_stripPrefixCI _ _ _ heq x (mem_dropWhileP hx)
      · cases h
    · cases h
  · cases h

theorem mem_matchLabel_rest {l : Str} {lab : String} {rest : Str}
    (h : matchLabel l = some (lab, rest)) : ∀ x ∈ rest, x ∈ l := by
  cases l with
  | nil => cases h
  | cons c t =>
    simp only [matchLabel] at h
    split at h
    · split at h
      · rename_i r heq
        simp only [Option.some.injEq, Prod.mk.injEq] at h
        intro x hx
        rw [h.2] at heq
        have : x ∈ ':' :: rest := List.mem_cons_of_mem _ hx
        rw [← heq] at this
        exact List.mem_cons_of_mem c (mem_dropWhileP this)
      · cases h
    · cases h

theorem mem_splitOnChar : ∀ (sep : Char) (l piece : Str),
    piece ∈ splitOnChar sep l → ∀ x ∈ piece, x ∈ l := by
  intro sep l
  induction l with
  | nil =>
    intro piece h x hx
    simp only [splitOnChar, List.mem_singleton] at h
    subst h
    cases hx
  | cons c t ih =>
    intro piece h x hx
    simp only [splitOnChar] at h
    split at h
    · rcases List.mem_cons.mp h with h1 | h1
      · subst h1; cases hx
      · exact List.mem_cons_of_mem c (ih piece h1 x hx)
    · split at h
      · rename_i heq
        rw [List.mem_singleton] at h
        subst h
        rw [List.mem_singleton] at hx
        rw [hx]
        exact List.mem_cons_self _ _
      · rename_i h0 r heq
        rcases List.mem_cons.mp h with h1 | h1
        · subst h1
          rcases List.mem_cons.mp hx with h2 | h2
          · subst h2; exact List.mem_cons_self x t
          · refine List.mem_cons_of_mem c (ih h0 ?_ x h2)
            rw [heq]
            exact List.mem_cons_self h0 r
        · refine List.mem_cons_of_mem c (ih piece ?_ x hx)
          rw [heq]
          exact List.mem_cons_of_mem h0 h1

theorem mem_pmSkipComma {l : Str} {x : Char} (h : x ∈ pmSkipComma l) : x ∈ l := by
  unfold pmSkipComma at h
  split at h
  · rename_i t heq
    have : x ∈ l.dropWhile isWsC := by
      rw [heq]
      exact List.mem_cons_of_mem _ h
    exact mem_dropWhileP this
  · exact mem_dropWhileP h

theorem pmLoop_bounds (L : LabelMap) (ctx : String) :
    ∀ (fuel : Nat) (l : Str) (acc : List Int), (∀ c ∈ l, c.toNat ≤ 255) →
      (∀ b ∈ acc, 0 ≤ b ∧ b ≤ 255) →
      ∀ bs, pmLoop L ctx fuel l acc = .ok bs → ∀ b ∈ bs, 0 ≤ b ∧ b ≤ 255 := by
  intro fuel
  induction fuel with
  | zero =>
    intro l acc _ _ bs h
    cases h
  | succ fuel ih =>
    intro l acc hl hacc bs h
    unfold pmLoop at h
    split at h
    · cases h
      exact hacc
    · rename_i q rest hm
      split at h
      · rename_i hq
        split at h
        · cases h
        · rename_i hd rest3 hr
          refine ih _ _ ?_ ?_ bs h
          · intro c hc
            apply hl
            have h2 : c ∈ rest.dropWhile (· != q) := by
              rw [hr]
              exact List.mem_cons_of_mem _ (mem_pmSkipComma hc)
            have h3 : c ∈ q :: rest := List.mem_cons_of_mem _ (mem_dropWhileP h2)
            rw [← hm] at h3
            exact mem_dropWhileP h3
          · intro b hb
            rcases List.mem_append.mp hb with h1 | h1
            · exact hacc b h1
            · obtain ⟨c, hc, hcb⟩ := List.mem_map.mp h1
              subst hcb
              refine ⟨Int.ofNat_nonneg _, ?_⟩
              have h2 : c ∈ q :: rest := List.mem_cons_of_mem _ (mem_takeWhileP hc)
              rw [← hm] at h2
              have := hl c (mem_dropWhileP h2)
              omega
      · rename_i hq
        split at h
        · cases h
        · rename_i hemp
          split at h
          · cases h
          · rename_i v hv
            split at h
            · cases h
            · rename_i hrange
              refine ih _ _ ?_ ?_ bs h
              · intro c hc
                apply hl
                have h2 : c ∈ (q :: rest).dropWhile (· != ',') := mem_pmSkipComma hc
                have h3 : c ∈ q :: rest := mem_dropWhileP h2
                rw [← hm] at h3
                exact mem_dropWhileP h3
              · intro b hb
                rcases List.mem_append.mp hb with h1 | h1
                · exact hacc b h1
                · rw [List.mem_singleton] at h1
                  subst h1
                  simp only [Bool.or_eq_true, decide_eq_true_eq, not_or] at hrange
                  omega

theorem parseMixedValues_bounds {l : Str} {L : LabelMap} {ctx : String} {bs : List Int}
    (hl : ∀ c ∈ l, c.toNat ≤ 255) (h : parseMixedValues l L ctx = .ok bs) :
    ∀ b ∈ bs, 0 ≤ b ∧ b ≤ 255 :=
  pmLoop_bounds L ctx ((trimL l).length + 1) (trimL l) []
    (fun c hc => hl c (mem_trimL hc)) (by simp) bs h

theorem byteValues_bounds (L : LabelMap) :
    ∀ (pieces : List Str) (vs : List Int), byteValues L pieces = .ok vs →
      ∀ b ∈ vs, 0 ≤ b ∧ b ≤ 255 := by
  intro pieces
  induction pieces with
  | nil =>
    intro vs h b hb
    cases h
    cases hb
  | cons v rest ih =>
    intro vs h b hb
    unfold byteValues at h
    split at h
    · cases h
    · rename_i n hn
      split at h
      · cases h
      · rename_i hrange
        split at h
        · cases h
        · rename_i ns hns
          cases h
          rcases List.mem_cons.mp hb with h1 | h1
          · subst h1
            simp only [Bool.or_eq_true, decide_eq_true_eq] at hrange
            constructor <;> omega
          · exact ih ns hns b h1

set_option maxRecDepth 100000 in
theorem instructionSet_opcode_bound : ∀ v ∈ instructionSet, v.opcode ≤ 255 := by decide

theorem candidatesFor_subset {m : String} {operand : Str} {v : Variant}
    (hv : v ∈ candidatesFor m operand) : v ∈ instructionSet := by
  unfold candidatesFor at hv
  exact List.mem_of_mem_filter hv

/-- The per-record facts Pass 1 guarantees that Pass 2 needs for byte
bounds: stored data bytes are in range, and instruction variants come from
the instruction table. -/
def plGood : ParsedLine → Prop
  | .byteDir _ _ _ _ vs => ∀ b ∈ vs, 0 ≤ b ∧ b ≤ 255
  | .asciiDir _ _ _ _ vs => ∀ b ∈ vs, 0 ≤ b ∧ b ≤ 255
  | .asciizDir _ _ _ _ vs => ∀ b ∈ vs, 0 ≤ b ∧ b ≤ 255
  | .instr _ _ _ _ _ v cands => v ∈ instructionSet ∧ ∀ c ∈ cands, c ∈ instructionSet
  | _ => True

theorem mem_of_headQ {α : Type} {l : List α} {a : α} (h : l.head? = some a) : a ∈ l := by
  cases l with
  | nil => cases h
  | cons x t =>
    simp only [List.head?_cons, Option.some.injEq] at h
    subst h
    exact List.mem_cons_self x t

theorem p1Content_good (st : P1) (ln : Nat) (orig : String) (lbl : Option String)
    (content : Str) (st' : P1)
    (hchars : ∀ c ∈ content, c.toNat ≤ 255)
    (hst : ∀ p ∈ st.plines, plGood p)
    (h : p1Content st ln orig lbl content = .ok st') :
    ∀ p ∈ st'.plines, plGood p := by
  unfold p1Content at h
  repeat' split at h
  all_goals cases h
  all_goals intro p hp
  all_goals rcases memAppendSingle hp with h1 | h1
  all_goals (try exact hst p h1)
  all_goals subst h1
  all_goals simp only [plGood]
  all_goals
    first
    | trivial
    | exact byteValues_bounds _ _ _ (by assumption)
    | (exact parseMixedValues_bounds
         (fun c hc => hchars c (mem_dirRest (by assumption) c hc)) (by assumption))
    | (rename_i hhead
       exact ⟨candidatesFor_subset (mem_of_headQ hhead), fun c hc => candidatesFor_subset hc⟩)

theorem pass1Line_good (st : P1) (n : Nat) (l : Str) (st' : P1)
    (hchars : ∀ c ∈ l, c.toNat ≤ 255)
    (hst : ∀ p ∈ st.plines, plGood p)
    (h : pass1Line st n l = .ok st') : ∀ p ∈ st'.plines, plGood p := by
  have hp0 : ∀ c ∈ trimL l, c.toNat ≤ 255 := fun c hc => hchars c (mem_trimL hc)
  have hp1 : ∀ c ∈ (if (trimL l).contains ';' then trimL ((trimL l).takeWhile (· != ';'))
      else trimL l), c.toNat ≤ 255 := by
    split
    · exact fun c hc => hp0 c (mem_takeWhileP (mem_trimL hc))
    · exact hp0
  simp only [pass1Line] at h
  split at h
  · cases h
    intro p hp
    rcases memAppendSingle hp with h1 | h1
    · exact hst p h1
    · subst h1; trivial
  · generalize hgen : (if (trimL l).contains ';' then trimL ((trimL l).takeWhile (· != ';'))
        else trimL l) = p1 at h
    have hp1' : ∀ c ∈ p1, c.toNat ≤ 255 := hgen ▸ hp1
    split at h
    · cases h
      intro p hp
      rcases memAppendSingle hp with h1 | h1
      · exact hst p h1
      · subst h1; trivial
    · split at h
      · rename_i lab rest0 hml
        split at h
        · cases h
        · split at h
          · cases h
            intro p hp
            rcases memAppendSingle hp with h1 | h1
            · exact hst p h1
            · subst h1; trivial
          · refine p1Content_good _ _ _ _ _ _ ?_ ?_ h
            · exact fun c hc => hp1' c (mem_matchLabel_rest hml c (mem_trimL hc))
            · intro p hp
              rcases memAppendSingle hp with h1 | h1
              · exact hst p h1
              · subst h1; trivial
      · exact p1Content_good _ _ _ _ _ _ hp1' hst h

theorem p1Go_good : ∀ (ls : List Str) (st : P1) (i : Nat) (st' : P1),
    (∀ pl ∈ ls, ∀ c ∈ pl, c.toNat ≤ 255) →
    (∀ p ∈ st.plines, plGood p) →
    p1Go st i ls = .ok st' → ∀ p ∈ st'.plines, plGood p := by
  intro ls
  induction ls with
  | nil =>
    intro st i st' _ hst h
    cases h
    exact hst
  | cons l rest ih =>
    intro st i st' hls hst h
    unfold p1Go at h
    cases hp : pass1Line st (i + 1) l with
    | error e => rw [hp] at h; cases h
    | ok st1 =>
      rw [hp] at h
      refine ih st1 (i + 1) st' (fun pl hpl => hls pl (List.mem_cons_of_mem l hpl)) ?_ h
      exact pass1Line_good st (i + 1) l st1 (hls l (List.mem_cons_self l rest)) hst hp

theorem byteBound_of_not {n : Int} (h : ¬(decide (n < 0) || decide (n > 255)) = true) :
    0 ≤ n ∧ n ≤ 255 := by
  simp only [Bool.or_eq_true, decide_eq_true_eq, not_or, not_lt, gt_iff_lt] at h
  omega

theorem jsAnd255_bound (n : Int) : 0 ≤ jsAnd255 n ∧ jsAnd255 n ≤ 255 :=
  ⟨jsAnd255_nonneg n, jsAnd255_le n⟩

theorem listOneBound {x : Int} (hx : 0 ≤ x ∧ x ≤ 255) :
    ∀ b ∈ [x], 0 ≤ b ∧ b ≤ 255 := by
  intro b hb
  rw [List.mem_singleton] at hb
  exact hb ▸ hx

theorem listPairBound {x y : Int} (hx : 0 ≤ x ∧ x ≤ 255) (hy : 0 ≤ y ∧ y ≤ 255) :
    ∀ b ∈ [x, y], 0 ≤ b ∧ b ≤ 255 := by
  intro b hb
  rcases List.mem_cons.mp hb with h | h
  · exact h ▸ hx
  · rw [List.mem_singleton] at h
    exact h ▸ hy

theorem resolveOperand_bounds (rk : Rk) (op : Str) (L : LabelMap) (A : Nat)
    (bs : List Int) (h : resolveOperand rk op L A = .ok bs) :
    ∀ b ∈ bs, 0 ≤ b ∧ b ≤ 255 := by
  cases rk <;>
    simp only [resolveOperand, resolveImmediate, resolveZeroPage, resolveAbsolute,
      resolveZeroPageIndexed, resolveAbsoluteIndexed, resolveIndirectX, resolveIndirectY,
      resolveRelativeLabel, resolveIndirectAbsolute, immNum] at h <;>
    repeat' split at h
  all_goals cases h
  all_goals
    first
    | (intro b hb; exact absurd hb (List.not_mem_nil b))
    | exact listOneBound (byteBound_of_not (by assumption))
    | exact listPairBound (jsAnd255_bound _) (jsAnd255_bound _)
    | exact listOneBound (jsAnd255_bound _)

theorem emitWords_bounds (L : LabelMap) (ln : Nat) (orig : String) :
    ∀ (strs : List String) (bs : List Int), emitWords L ln orig strs = .ok bs →
      ∀ b ∈ bs, 0 ≤ b ∧ b ≤ 255 := by
  intro strs
  induction strs with
  | nil =>
    intro bs h b hb
    cases h
    cases hb
  | cons s rest ih =>
    intro bs h
    unfold emitWords at h
    repeat' split at h
    all_goals cases h
    rename_i v hv hrange more hmore
    intro b hb
    rcases List.mem_cons.mp hb with h1 | h1
    · exact h1 ▸ jsAnd255_bound _
    · rcases List.mem_cons.mp h1 with h2 | h2
      · exact h2 ▸ jsAnd255_bound _
      · exact ih more hmore b h2

theorem emitDwords_bounds (L : LabelMap) (ln : Nat) (orig : String) :
    ∀ (strs : List String) (bs : List Int), emitDwords L ln orig strs = .ok bs →
      ∀ b ∈ bs, 0 ≤ b ∧ b ≤ 255 := by
  intro strs
  induction strs with
  | nil =>
    intro bs h b hb
    cases h
    cases hb
  | cons s rest ih =>
    intro bs h
    unfold emitDwords at h
    repeat' split at h
    all_goals cases h
    rename_i v hv hrange more hmore
    intro b hb
    rcases List.mem_cons.mp hb with h1 | h1
    · exact h1 ▸ jsAnd255_bound _
    · rcases List.mem_cons.mp h1 with h2 | h2
      · exact h2 ▸ jsAnd255_bound _
      · rcases List.mem_cons.mp h2 with h3 | h3
        · exact h3 ▸ jsAnd255_bound _
        · rcases List.mem_cons.mp h3 with h4 | h4
          · exact h4 ▸ jsAnd255_bound _
          · exact ih more hmore b h4

theorem finalVariantFor_mem (L : LabelMap) (operand : Str) (variant : Variant)
    (cands : List Variant) :
    finalVariantFor L operand variant cands = variant ∨
      finalVariantFor L operand variant cands ∈ cands := by
  unfold finalVariantFor
  repeat' split
  all_goals
    first
    | exact Or.inl rfl
    | (rename_i hfind
       exact Or.inr (List.mem_of_find?_eq_some hfind))

theorem emitLine_bounds (L : LabelMap) (p : ParsedLine) (bs : List Int)
    (hg : plGood p) (h : emitLine L p = .ok bs) : ∀ b ∈ bs, 0 ≤ b ∧ b ≤ 255 := by
  cases p with
  | instr ln orig a mn operand variant cands =>
    simp only [emitLine] at h
    split at h
    · cases h
    · rename_i rbs hres
      split at h
      · cases h
      · cases h
        intro b hb
        rcases List.mem_cons.mp hb with h1 | h1
        · subst h1
          have hfv : finalVariantFor L operand variant cands ∈ instructionSet := by
            rcases finalVariantFor_mem L operand variant cands with h2 | h2
            · rw [h2]; exact hg.1
            · exact hg.2 _ h2
          have := instructionSet_opcode_bound _ hfv
          constructor
          · exact Int.ofNat_nonneg _
          · exact_mod_cast this
        · exact resolveOperand_bounds _ _ _ _ _ hres b h1
  | byteDir ln orig a lb vs =>
    cases h
    exact hg
  | wordDir ln orig a lb strs => exact emitWords_bounds L ln orig strs bs h
  | dwordDir ln orig a lb strs => exact emitDwords_bounds L ln orig strs bs h
  | asciiDir ln orig a lb vs =>
    cases h
    exact hg
  | asciizDir ln orig a lb vs =>
    cases h
    intro b hb
    rcases List.mem_append.mp hb with h1 | h1
    · exact hg b h1
    · rw [List.mem_singleton] at h1
      subst h1
      exact ⟨le_refl 0, by norm_num⟩
  | comment ln orig a => cases h; intro b hb; cases hb
  | labelDef ln orig a lb => cases h; intro b hb; cases hb
  | org ln orig a v => cases h; intro b hb; cases hb
  | res ln orig a lb sz => cases h; intro b hb; cases hb

theorem pass2_bounds (L : LabelMap) :
    ∀ (ps : List ParsedLine) (bs : List Int), (∀ p ∈ ps, plGood p) →
      pass2 L ps = .ok bs → ∀ b ∈ bs, 0 ≤ b ∧ b ≤ 255 := by
  intro ps
  induction ps with
  | nil =>
    intro bs _ h b hb
    cases h
    cases hb
  | cons p rest ih =>
    intro bs hg h
    unfold pass2 at h
    cases hp : emitLine L p with
    | error e => rw [hp] at h; cases h
    | ok pbs =>
      rw [hp] at h
      cases hr : pass2 L rest with
      | error e => rw [hr] at h; cases h
      | ok more =>
        rw [hr] at h
        cases h
        intro b hb
        rcases List.mem_append.mp hb with h1 | h1
        · exact emitLine_bounds L p pbs (hg p (List.mem_cons_self p rest)) hp b h1
        · exact ih more (fun q hq => hg q (List.mem_cons_of_mem p hq)) hr b h1

/-- C8 is false as stated: a quoted-string character is emitted as its
code unit with no range check, so `.ascii "€"` (U+20AC) assembles without
error to the single "byte" 8364, which is not in 0..255. -/
theorem c8_counterexample :
    assemble ".ascii \"€\"" = ⟨[8364], none⟩ ∧
    ¬(∀ b ∈ (assemble ".ascii \"€\"").machineCode, 0 ≤ b ∧ b ≤ 255) := by
  constructor
  · decide
  · intro hall
    have := hall 8364 (by decide)
    omega

/-- C8 amended: provided every character of the source has a code point
at most 255 (in particular for 7-bit US-ASCII sources, where a quoted
character's code unit is exactly its US-ASCII code), every element of a
successfully assembled byte sequence lies in 0..255; the second conjunct
shows the `.ascii` character-to-byte correspondence on `"Hi"`. -/
theorem c8_amended :
    (∀ code : String, (∀ c ∈ code.toList, c.toNat ≤ 255) →
      ∀ bs, (assemble code).machineCode = bs → (assemble code).error = none →
      ∀ b ∈ bs, 0 ≤ b ∧ b ≤ 255) ∧
    assemble ".ascii \"Hi\"" = ⟨[72, 105], none⟩ := by
  refine ⟨?_, by decide⟩
  intro code hchars bs hbs herr
  unfold assemble at hbs herr
  cases hp : pass1 code with
  | error e =>
    rw [hp] at herr
    exact Option.noConfusion herr
  | ok st =>
    simp only [hp] at hbs
    cases hp2 : pass2 st.labels st.plines with
    | error e =>
      rw [hp] at herr
      simp only [hp2] at herr
      exact Option.noConfusion herr
    | ok mc =>
      simp only [hp2] at hbs
      subst hbs
      have hgood : ∀ p ∈ st.plines, plGood p := by
        unfold pass1 at hp
        refine p1Go_good _ _ _ _ ?_ (by intro p hp'; cases hp') hp
        intro pl hpl c hc
        exact hchars c (mem_splitOnChar '\n' code.toList pl hpl c hc)
      exact pass2_bounds st.labels st.plines mc hgood hp2

/-- Witness for C8 amended at an ASCII-only source. -/
theorem c8_amended_witness :
    ∀ b ∈ (assemble ".ascii \"Hi\"").machineCode, 0 ≤ b ∧ b ≤ 255 :=
  c8_amended.1 ".ascii \"Hi\"" (by decide) (assemble ".ascii \"Hi\"").machineCode rfl
    (by decide)

end Asm
